import Mathlib

/-!
# ericw-tools (moonshot): shallow embedding and checked properties

The first half of the file holds the definitions, the second half the theorems.
The definitions of `common/cmdlib.cc` and `common/bspfile_moonshot.cc` are each
translated from one function of the source. `include/qbsp/portals.hh` only
declares its functions: their bodies are not among the sources and are
modelled from the design document, as the comments of that part say.

Conventions of the embedding:
* a `std::string` is the list of its characters, an `unsigned char` buffer is
  the list of its bytes (`count` is the length of the list);
* an `unsigned short` is a natural number below `65536`, every assignment to
  one reduces modulo `65536`;
* a loop whose termination is not structural takes a fuel argument and returns
  `none` when the fuel runs out; the theorems give a fuel that is enough, or
  show that no fuel is.
-/

/-! ## common/cmdlib.cc : string_replaceall -/

/-- The scan of `std::string::find`: `l` is the part of the string that starts
at index `i`; the result is the index of the first occurrence of `pat` that
starts at or after `i`, or `none` for `npos`. -/
def string_find_aux (pat : List Char) : List Char → Nat → Option Nat
  | [], i => if pat = [] then some i else none
  | c :: t, i => if pat <+: (c :: t) then some i else string_find_aux pat t (i + 1)

/-- The call `str.find(pat, pos)`: `npos` when `pos` is beyond the end. -/
def string_find (str pat : List Char) (pos : Nat) : Option Nat :=
  if pos > str.length then none else string_find_aux pat (str.drop pos) pos

/-- The call `str.replace(pos, len, to)`. -/
def string_replace (str : List Char) (pos len : Nat) (to_ : List Char) : List Char :=
  str.take pos ++ to_ ++ str.drop (pos + len)

/-- An argument `from` or `to` of `string_replaceall`. Both are passed by
reference (`const std::string &`), and `str` is a reference too
(`std::string &`): the argument is either the very object `str`, whose value
then changes whenever `str` is assigned, or another object with a value of its
own. -/
inductive string_arg where
  | same_as_str
  | other (value : List Char)
deriving DecidableEq

/-- The current value of an argument, `str` being the current value of the string. -/
def string_arg.value (str : List Char) : string_arg → List Char
  | string_arg.same_as_str => str
  | string_arg.other v => v

/-- The `while` loop of `string_replaceall`, one iteration per unit of fuel:
`while ((start_pos = str.find(from, start_pos)) != npos)
   { str.replace(start_pos, from.length(), to); start_pos += to.length(); }`.
`from` and `to` are read through their references at each use: `from` and
`from.length()` before the replacement, the text of `to` at the replacement,
`to.length()` after it. The result is the final value of `str`, `none` when the
fuel runs out. -/
def string_replaceall_loop (from_ to_ : string_arg) : Nat → List Char → Nat → Option (List Char)
  | 0, _, _ => none
  | fuel + 1, str, start_pos =>
    match string_find str (from_.value str) start_pos with
    | none => some str
    | some p =>
      let str1 := string_replace str p (from_.value str).length (to_.value str)
      string_replaceall_loop from_ to_ fuel str1 (p + (to_.value str1).length)

/-- The function `string_replaceall(str, from, to)`, run for at most `fuel`
iterations of its loop; the result is the value of `str` on return, `none` when
the loop has not returned within the fuel. An empty `from` returns at once. -/
def string_replaceall (fuel : Nat) (str : List Char) (from_ to_ : string_arg) :
    Option (List Char) :=
  if from_.value str = [] then some str
  else string_replaceall_loop from_ to_ fuel str 0

set_option linter.unusedVariables false in
/-- The pieces of `s` between its leftmost non-overlapping occurrences of `pat`
(reference definition, `pat` non-empty): scanning from the left, an occurrence
of `pat` at the current position closes the current piece and the scan resumes
right after the occurrence. -/
def splitAtOccurrences (pat : List Char) (s : List Char) : List (List Char) :=
  match s with
  | [] => [[]]
  | c :: t =>
    if h : pat ≠ [] ∧ pat <+: (c :: t) then
      [] :: splitAtOccurrences pat ((c :: t).drop pat.length)
    else
      match splitAtOccurrences pat t with
      | [] => [[c]]
      | p :: ps => (c :: p) :: ps
termination_by s.length
decreasing_by
  all_goals simp_wf
  · have : 0 < pat.length := List.length_pos.mpr h.1
    simp; omega

/-- The pieces of `s` joined with `to_` (reference definition). -/
def joinedPieces (pat to_ s : List Char) : List Char :=
  List.intercalate to_ (splitAtOccurrences pat s)

/-! ## common/cmdlib.cc : CRC -/

/-- The type `uint8_t` / `unsigned char`. -/
abbrev uint8_t := Fin 256

/-- The macro `CRC_INIT_VALUE`. -/
def CRC_INIT_VALUE : Nat := 0xffff

/-- The macro `CRC_XOR_VALUE`. -/
def CRC_XOR_VALUE : Nat := 0x0000

/-- The array `static unsigned short crctable[256]`. -/
def crctable : List Nat := [0x0000, 0x1021, 0x2042, 0x3063, 0x4084, 0x50a5, 0x60c6, 0x70e7, 0x8108, 0x9129,
    0xa14a, 0xb16b, 0xc18c, 0xd1ad, 0xe1ce, 0xf1ef, 0x1231, 0x0210, 0x3273, 0x2252, 0x52b5, 0x4294, 0x72f7, 0x62d6,
    0x9339, 0x8318, 0xb37b, 0xa35a, 0xd3bd, 0xc39c, 0xf3ff, 0xe3de, 0x2462, 0x3443, 0x0420, 0x1401, 0x64e6, 0x74c7,
    0x44a4, 0x5485, 0xa56a, 0xb54b, 0x8528, 0x9509, 0xe5ee, 0xf5cf, 0xc5ac, 0xd58d, 0x3653, 0x2672, 0x1611, 0x0630,
    0x76d7, 0x66f6, 0x5695, 0x46b4, 0xb75b, 0xa77a, 0x9719, 0x8738, 0xf7df, 0xe7fe, 0xd79d, 0xc7bc, 0x48c4, 0x58e5,
    0x6886, 0x78a7, 0x0840, 0x1861, 0x2802, 0x3823, 0xc9cc, 0xd9ed, 0xe98e, 0xf9af, 0x8948, 0x9969, 0xa90a, 0xb92b,
    0x5af5, 0x4ad4, 0x7ab7, 0x6a96, 0x1a71, 0x0a50, 0x3a33, 0x2a12, 0xdbfd, 0xcbdc, 0xfbbf, 0xeb9e, 0x9b79, 0x8b58,
    0xbb3b, 0xab1a, 0x6ca6, 0x7c87, 0x4ce4, 0x5cc5, 0x2c22, 0x3c03, 0x0c60, 0x1c41, 0xedae, 0xfd8f, 0xcdec, 0xddcd,
    0xad2a, 0xbd0b, 0x8d68, 0x9d49, 0x7e97, 0x6eb6, 0x5ed5, 0x4ef4, 0x3e13, 0x2e32, 0x1e51, 0x0e70, 0xff9f, 0xefbe,
    0xdfdd, 0xcffc, 0xbf1b, 0xaf3a, 0x9f59, 0x8f78, 0x9188, 0x81a9, 0xb1ca, 0xa1eb, 0xd10c, 0xc12d, 0xf14e, 0xe16f,
    0x1080, 0x00a1, 0x30c2, 0x20e3, 0x5004, 0x4025, 0x7046, 0x6067, 0x83b9, 0x9398, 0xa3fb, 0xb3da, 0xc33d, 0xd31c,
    0xe37f, 0xf35e, 0x02b1, 0x1290, 0x22f3, 0x32d2, 0x4235, 0x5214, 0x6277, 0x7256, 0xb5ea, 0xa5cb, 0x95a8, 0x8589,
    0xf56e, 0xe54f, 0xd52c, 0xc50d, 0x34e2, 0x24c3, 0x14a0, 0x0481, 0x7466, 0x6447, 0x5424, 0x4405, 0xa7db, 0xb7fa,
    0x8799, 0x97b8, 0xe75f, 0xf77e, 0xc71d, 0xd73c, 0x26d3, 0x36f2, 0x0691, 0x16b0, 0x6657, 0x7676, 0x4615, 0x5634,
    0xd94c, 0xc96d, 0xf90e, 0xe92f, 0x99c8, 0x89e9, 0xb98a, 0xa9ab, 0x5844, 0x4865, 0x7806, 0x6827, 0x18c0, 0x08e1,
    0x3882, 0x28a3, 0xcb7d, 0xdb5c, 0xeb3f, 0xfb1e, 0x8bf9, 0x9bd8, 0xabbb, 0xbb9a, 0x4a75, 0x5a54, 0x6a37, 0x7a16,
    0x0af1, 0x1ad0, 0x2ab3, 0x3a92, 0xfd2e, 0xed0f, 0xdd6c, 0xcd4d, 0xbdaa, 0xad8b, 0x9de8, 0x8dc9, 0x7c26, 0x6c07,
    0x5c64, 0x4c45, 0x3ca2, 0x2c83, 0x1ce0, 0x0cc1, 0xef1f, 0xff3e, 0xcf5d, 0xdf7c, 0xaf9b, 0xbfba, 0x8fd9, 0x9ff8,
    0x6e17, 0x7e36, 0x4e55, 0x5e74, 0x2e93, 0x3eb2, 0x0ed1, 0x1ef0]

/-- The function `CRC_Init`: `*crcvalue = CRC_INIT_VALUE`. -/
def CRC_Init : Nat := CRC_INIT_VALUE

/-- The function `CRC_ProcessByte`:
`*crcvalue = (*crcvalue << 8) ^ crctable[(*crcvalue >> 8) ^ data]`,
stored back into an `unsigned short`. -/
def CRC_ProcessByte (crcvalue : Nat) (data : uint8_t) : Nat :=
  ((crcvalue <<< 8) ^^^ crctable.getD ((crcvalue >>> 8) ^^^ data.val) 0) % 65536

/-- The function `CRC_Value`: `crcvalue ^ CRC_XOR_VALUE`. -/
def CRC_Value (crcvalue : Nat) : Nat := crcvalue ^^^ CRC_XOR_VALUE

/-- The loop of `CRC_Block`:
`while (count--) crc = (crc << 8) ^ crctable[(crc >> 8) ^ *start++];`. -/
def CRC_Block_loop : Nat → List uint8_t → Nat
  | crc, [] => crc
  | crc, b :: rest =>
    CRC_Block_loop (((crc <<< 8) ^^^ crctable.getD ((crc >>> 8) ^^^ b.val) 0) % 65536) rest

/-- The function `CRC_Block(start, count)`: `CRC_Init(&crc)`, the loop, `return crc`. -/
def CRC_Block (start : List uint8_t) : Nat :=
  CRC_Block_loop CRC_Init start

/-- One step of a bit-by-bit, most-significant-bit-first 16-bit CRC (reference
definition): shift the register left by one and, when the bit shifted out is
set, xor the polynomial in. -/
def crcShiftStep (poly : Nat) (r : Nat) : Nat :=
  if r &&& 0x8000 ≠ 0 then ((r <<< 1) ^^^ poly) % 65536 else (r <<< 1) % 65536

/-- Feeding one byte to the bit-by-bit CRC (reference definition): xor the byte
into the high half of the register, then eight shift steps. -/
def crcBitwiseByte (poly : Nat) (r : Nat) (b : uint8_t) : Nat :=
  (crcShiftStep poly)^[8] (r ^^^ (b.val <<< 8))

/-- The non-reflected 16-bit CRC with polynomial `poly`, initial value `init` and
final xor `xorout`, computed bit by bit (reference definition). -/
def crc16 (poly init xorout : Nat) (bs : List uint8_t) : Nat :=
  (bs.foldl (crcBitwiseByte poly) init) ^^^ xorout

/-- The CRC-16/XMODEM checksum (reference definition): polynomial `0x1021`,
non-reflected, initial value `0x0000`, no final xor. -/
def crc16_xmodem (bs : List uint8_t) : Nat := crc16 0x1021 0x0000 0x0000 bs

/-- The nine ASCII bytes of the text 123456789. -/
def ascii_123456789 : List uint8_t := [0x31, 0x32, 0x33, 0x34, 0x35, 0x36, 0x37, 0x38, 0x39]

/-! ## common/bspfile_moonshot.cc : moonshot_dface_t -/

/-- The type `int32_t`. -/
abbrev int32_t := { x : Int // -2147483648 ≤ x ∧ x ≤ 2147483647 }

/-- The type `int64_t`. -/
abbrev int64_t := { x : Int // -9223372036854775808 ≤ x ∧ x ≤ 9223372036854775807 }

/-- The type `uint32_t`. -/
abbrev uint32_t := Fin 4294967296

/-- The struct `moonshot_dface_t` of `bspfile_moonshot.hh`. The array `styles`
(`std::array<uint8_t, MAXLIGHTMAPS>`) is the list of its elements. -/
structure moonshot_dface_t where
  planenum : int32_t
  texinfo : int32_t
  firstedge : int32_t
  numedges : int32_t
  styles : List uint8_t
  lightofs : int32_t
  flags : uint32_t
deriving DecidableEq

/-- Modelled from the spec: the struct `mface_t` is declared in `common/bspfile.hh`,
which is not among the sources, and the spec does not describe it. Its members
are read off `bspfile_moonshot.cc`: the constructor reads `planenum`, `texinfo`,
`firstedge`, `numedges`, `styles`, `lightofs` and `flags`; `operator mface_t()`
initialises eight members in order, and the members are taken in that order,
the second one (set to `0`, never read back) being called `side`. `planenum` is
the one member that goes through `numeric_cast<int32_t>`, so it is taken to be
the wider `int64_t`; the others have the types of `moonshot_dface_t`. -/
structure mface_t where
  planenum : int64_t
  side : int32_t
  firstedge : int32_t
  numedges : int32_t
  texinfo : int32_t
  styles : List uint8_t
  lightofs : int32_t
  flags : uint32_t
deriving DecidableEq

/-- The failure of a `numeric_cast`: the value does not fit the target type. -/
inductive cast_error where
  | overflow
deriving DecidableEq

/-- Modelled from the spec: `numeric_cast` comes from `common/numeric_cast.hh`,
which is not among the sources; as its name and its use say, it converts a
value to the target type and fails when the value does not fit. This is
`numeric_cast<int32_t>` applied to an `int64_t`. -/
def numeric_cast_int32 (v : int64_t) : Except cast_error int32_t :=
  if h : -2147483648 ≤ v.val ∧ v.val ≤ 2147483647 then Except.ok ⟨v.val, h⟩
  else Except.error cast_error.overflow

/-- The implicit conversion of an `int32_t` to `int64_t`. -/
def int32_t.to_int64 (v : int32_t) : int64_t :=
  ⟨v.val, by have := v.property; constructor <;> omega⟩

/-- The constructor `moonshot_dface_t::moonshot_dface_t(const mface_t &model)`. -/
def moonshot_dface_t.of_mface (model : mface_t) : Except cast_error moonshot_dface_t :=
  match numeric_cast_int32 model.planenum with
  | Except.error e => Except.error e
  | Except.ok planenum =>
    Except.ok
      { planenum := planenum
        texinfo := model.texinfo
        firstedge := model.firstedge
        numedges := model.numedges
        styles := model.styles
        lightofs := model.lightofs
        flags := model.flags }

/-- The conversion `moonshot_dface_t::operator mface_t() const`:
`return {planenum, 0, firstedge, numedges, texinfo, styles, lightofs, flags}`,
an initialiser list that fills the members of `mface_t` in their order. -/
def moonshot_dface_t.to_mface (d : moonshot_dface_t) : mface_t :=
  mface_t.mk d.planenum.to_int64 ⟨0, by decide⟩ d.firstedge d.numedges d.texinfo d.styles
    d.lightofs d.flags

/-! ## include/qbsp/portals.hh : the portal graph

`portals.hh` declares the types `portal_t` and `tree_t` and the functions
`MakeHeadnodePortals`, `MakeNodePortal`, `SplitNodePortals`, `MakeTreePortals`,
`FreeTreePortals_r` and `AssertNoPortals`; the bodies of these functions are not
among the sources. They are modelled below from sections 3, 4.2, 4.3, 4.5, 7
and 9 of the design document. Following its section 9, the regions are
addressed by a stable identifier, the portals live in a central arena indexed
by an integer id, and the portal list of a region is an ordered collection of
portal ids. -/

/-- A point of space (`qvec3d`). The coordinates are kept as exact integers: the
box faces built below only copy coordinates of the bounding box. -/
structure qvec3d where
  x : Int
  y : Int
  z : Int
deriving DecidableEq

/-- The coordinate of a point along an axis (`v[axis]`). -/
def qvec3d.get (v : qvec3d) (axis : Fin 3) : Int :=
  match axis.val with
  | 0 => v.x
  | 1 => v.y
  | _ => v.z

/-- The point whose coordinate along `axis` is `c` and whose two other
coordinates, in increasing order of axis, are `u` and `v`. -/
def qvec3d.on_axis (axis : Fin 3) (c u v : Int) : qvec3d :=
  match axis.val with
  | 0 => { x := c, y := u, z := v }
  | 1 => { x := u, y := c, z := v }
  | _ => { x := u, y := v, z := c }

/-- A winding: the ordered sequence of the points of a convex polygon. -/
abbrev winding_t := List qvec3d

/-- An axis-aligned bounding box (`aabb3d`). -/
structure aabb3d where
  mins : qvec3d
  maxs : qvec3d
deriving DecidableEq

/-- The two axes other than `axis`, in increasing order. -/
def other_axes (axis : Fin 3) : Fin 3 × Fin 3 :=
  match axis.val with
  | 0 => (1, 2)
  | 1 => (0, 2)
  | _ => (0, 1)

/-- The coordinate along `axis` of the face of the box on the `mins` side
(`maxside = false`) or on the `maxs` side (`maxside = true`). -/
def aabb3d.face_dist (b : aabb3d) (axis : Fin 3) (maxside : Bool) : Int :=
  if maxside then b.maxs.get axis else b.mins.get axis

/-- Modelled from the spec: the rectangular winding lying on one face of the
bounding box (section 4.2): its four corners, in cyclic order. -/
def aabb3d.face_winding (b : aabb3d) (axis : Fin 3) (maxside : Bool) : winding_t :=
  let c := b.face_dist axis maxside
  let u := (other_axes axis).1
  let v := (other_axes axis).2
  [ qvec3d.on_axis axis c (b.mins.get u) (b.mins.get v),
    qvec3d.on_axis axis c (b.maxs.get u) (b.mins.get v),
    qvec3d.on_axis axis c (b.maxs.get u) (b.maxs.get v),
    qvec3d.on_axis axis c (b.mins.get u) (b.maxs.get v) ]

/-- Modelled from the spec: a bounding box is degenerate when its extent is zero
or negative on some axis (section 4.2). -/
def aabb3d.degenerate (b : aabb3d) : Bool :=
  decide (b.maxs.x ≤ b.mins.x) || decide (b.maxs.y ≤ b.mins.y) || decide (b.maxs.z ≤ b.mins.z)

/-- Modelled from the spec: a region of the tree (`node_t`, declared in
`qbsp/qbsp.hh`, not among the sources; section 3): a leaf with its content
classification, or an internal node with its splitting-plane index and its two
children, front (`children[0]`) and back (`children[1]`). The portal list of a
region is kept in the portal graph. -/
inductive node_t where
  | leaf (contents : Int)
  | internal (planenum : Int) (front back : node_t)
deriving DecidableEq

/-- A pointer `node_t *` into a tree: the synthetic outside region
(`&tree->outside_node`), or the node reached from the headnode by a path of
child indices. The path lists the most recent step first: the headnode is
`in_tree []`, and `children[i]` of `in_tree path` is `in_tree (i :: path)`. -/
inductive node_ref where
  | outside_node
  | in_tree (path : List (Fin 2))
deriving DecidableEq

/-- The struct `tree_t` of `portals.hh`; `outside_node` is addressed by
`node_ref.outside_node`. -/
structure tree_t where
  headnode : node_t
  bounds : aabb3d
deriving DecidableEq

/-- The struct `portal_t` of `portals.hh`. The links `next[0]`, `next[1]` are not
fields here: the list of a region, which in the source is threaded through
`next[side]`, is kept as a sequence in the portal graph, and `next[side]` of a
portal is the entry that follows it in the list of `nodes[side]`. -/
structure portal_t where
  planenum : Int
  onnode : Option node_ref
  nodes : Option node_ref × Option node_ref
  winding : Option winding_t
deriving DecidableEq

/-- The portals and the portal lists of the regions: `portals` is the arena,
the id of a portal is its index, and a freed portal leaves `none`; `lists`
records the portal list of each region, the most recent record of a region
first, a region with no record having the empty list. -/
structure portal_graph where
  portals : List (Option portal_t)
  lists : List (node_ref × List Nat)
deriving DecidableEq

/-- The graph with no portal. -/
def portal_graph.empty : portal_graph := { portals := [], lists := [] }

/-- The portal with a given id, `none` when it was never allocated or is freed. -/
def portal_graph.portal (s : portal_graph) (id : Nat) : Option portal_t :=
  (s.portals[id]?).join

/-- Lookup of the most recent record of a region. -/
def lookup_list (n : node_ref) : List (node_ref × List Nat) → List Nat
  | [] => []
  | (m, l) :: rest => if m = n then l else lookup_list n rest

/-- The portal list of a region (`node->portals` followed through `next[side]`):
the ids of its portals, the most recently linked first. -/
def portal_graph.list (s : portal_graph) (n : node_ref) : List Nat :=
  lookup_list n s.lists

/-- Assignment of the portal list of a region. -/
def portal_graph.set_list (s : portal_graph) (n : node_ref) (l : List Nat) : portal_graph :=
  { s with lists := (n, l) :: s.lists }

/-- Assignment of the record of a portal. -/
def portal_graph.set_portal (s : portal_graph) (id : Nat) (p : Option portal_t) :
    portal_graph :=
  { s with portals := s.portals.set id p }

/-- Allocation of a portal (`new portal_t`): the graph with the new record, and
the id of the new portal. -/
def portal_graph.new_portal (s : portal_graph) (p : portal_t) : portal_graph × Nat :=
  ({ s with portals := s.portals ++ [some p] }, s.portals.length)

/-- Modelled from the spec: linking a portal between two regions (section 3): the two
sides of the portal become `front` and `back`, and the portal is put at the head
of the portal list of each of them. -/
def link_portal (s : portal_graph) (id : Nat) (front back : node_ref) : portal_graph :=
  match s.portal id with
  | none => s
  | some q =>
    let s1 := s.set_portal id (some { q with nodes := (some front, some back) })
    let s2 := s1.set_list front (id :: s1.list front)
    s2.set_list back (id :: s2.list back)

/-- Removal of a portal from the portal list of one optional side. -/
def remove_from_side (s : portal_graph) (id : Nat) : Option node_ref → portal_graph
  | none => s
  | some n => s.set_list n ((s.list n).erase id)

/-- Modelled from the spec: unlinking a portal from the two regions it borders: it is
taken out of the portal list of each side and its two sides are cleared. -/
def unlink_portal (s : portal_graph) (id : Nat) : portal_graph :=
  match s.portal id with
  | none => s
  | some q =>
    let s1 := remove_from_side s id q.nodes.1
    let s2 := remove_from_side s1 id q.nodes.2
    s2.set_portal id (some { q with nodes := (none, none) })

/-- The classification of a winding against a plane (section 4.3, steps 1 to 3):
fully in front, fully behind, lying on the plane, or straddling it. -/
inductive side_t where
  | FRONT
  | BACK
  | ON
  | CROSS
deriving DecidableEq

/-- Modelled from the spec: the geometry primitives of section 4.1 and the plane
table of section 3 are not among the sources and work on floating-point
polygons; they are parameters of the model. `FindPlane axis maxside dist` is the
index in the plane table of the plane of a bounding-box face;
`ClassifyWinding w planenum` classifies a winding against a plane;
`ClipWinding w planenum` is the pair of the front and back fragments, each
optional; `OnPlaneFront portalplane nodeplane` is the routing convention of
step 3 for a portal lying on the splitting plane (`true`: to the front child);
`NodeWinding planenum windings` is the winding of the portal synthesized on a
splitting plane from the windings of the portals bordering the node (step 4). -/
structure geometry_t where
  FindPlane : Fin 3 → Bool → Int → Int
  ClassifyWinding : Option winding_t → Int → side_t
  ClipWinding : Option winding_t → Int → Option winding_t × Option winding_t
  OnPlaneFront : Int → Int → Bool
  NodeWinding : Int → List (Option winding_t) → Option winding_t

/-- The fatal errors of section 7. -/
inductive portal_error where
  | degenerate_bounds
  | mislinked_portal
  | clip_failed
  | leaf_without_portals
deriving DecidableEq

/-- The six faces of a box, as pairs of an axis and a side. -/
def box_faces : List (Fin 3 × Bool) :=
  [(0, false), (1, false), (2, false), (0, true), (1, true), (2, true)]

/-- Modelled from the spec: the creation of the boundary portal of one face
(section 4.2): a portal on the plane of the face, with the rectangular winding
of the face, bordering the headnode on one side and the outside region on the
other. Its `onnode` is null, as the comment on `portal_t::onnode` says of the
six sides of the box. -/
def make_face_portal (g : geometry_t) (b : aabb3d) (s : portal_graph) (face : Fin 3 × Bool) :
    portal_graph :=
  let p : portal_t :=
    { planenum := g.FindPlane face.1 face.2 (b.face_dist face.1 face.2)
      onnode := none
      nodes := (none, none)
      winding := some (b.face_winding face.1 face.2) }
  let r := s.new_portal p
  link_portal r.1 r.2 (node_ref.in_tree []) node_ref.outside_node

/-- The record of the boundary portal of a face once `make_face_portal` has
linked it. -/
def face_portal (g : geometry_t) (b : aabb3d) (face : Fin 3 × Bool) : portal_t :=
  { planenum := g.FindPlane face.1 face.2 (b.face_dist face.1 face.2)
    onnode := none
    nodes := (some (node_ref.in_tree []), some node_ref.outside_node)
    winding := some (b.face_winding face.1 face.2) }

/-- Modelled from the spec: `MakeHeadnodePortals(tree)` (section 4.2): fails on a
degenerate bounding box, otherwise constructs six portals, one per face of the
bounding box. -/
def MakeHeadnodePortals (g : geometry_t) (tree : tree_t) (s : portal_graph) :
    Except portal_error portal_graph :=
  if tree.bounds.degenerate then Except.error portal_error.degenerate_bounds
  else Except.ok (box_faces.foldl (make_face_portal g tree.bounds) s)

/-- The windings of the portals of a list. -/
def list_windings (s : portal_graph) (ids : List Nat) : List (Option winding_t) :=
  ids.map (fun id => match s.portal id with
    | none => none
    | some q => q.winding)

/-- Modelled from the spec: `MakeNodePortal(node)` (section 4.3, step 4): synthesizes
exactly one new portal lying on the splitting plane of the node, bridging its
front child and its back child. -/
def MakeNodePortal (g : geometry_t) (planenum : Int) (path : List (Fin 2)) (s : portal_graph) :
    portal_graph :=
  let p : portal_t :=
    { planenum := planenum
      onnode := some (node_ref.in_tree path)
      nodes := (none, none)
      winding := g.NodeWinding planenum (list_windings s (s.list (node_ref.in_tree path))) }
  let r := s.new_portal p
  link_portal r.1 r.2 (node_ref.in_tree (0 :: path)) (node_ref.in_tree (1 :: path))

/-- Relinking of a portal of the node being split: the side that was the node
(`side`, `0` or `1`) becomes the child, the other side is unchanged. -/
def link_to_child (s : portal_graph) (id : Nat) (side : Fin 2) (child other : node_ref) :
    portal_graph :=
  if side = 0 then link_portal s id child other else link_portal s id other child

/-- Assignment of the winding of a portal. -/
def set_winding (s : portal_graph) (id : Nat) (w : Option winding_t) : portal_graph :=
  match s.portal id with
  | none => s
  | some q => s.set_portal id (some { q with winding := w })

/-- Modelled from the spec: the treatment of one incoming portal of a node
(section 4.3, steps 1 to 3). The portal is classified against the plane of
the node; in front, it is reassigned to the front child; behind, to the back
child; on the plane, to the child the routing convention names; straddling,
it is clipped into a front and a back fragment and two descendant portals are
made, each inheriting the other side unchanged, the clipped side becoming
the corresponding child; a fragment that collapsed to nothing gives no
descendant, and a straddling portal with no fragment at all is fatal
(section 7). -/
def split_portal (g : geometry_t) (planenum : Int) (path : List (Fin 2)) (s : portal_graph)
    (id : Nat) : Except portal_error portal_graph :=
  let node := node_ref.in_tree path
  let f := node_ref.in_tree (0 :: path)
  let b := node_ref.in_tree (1 :: path)
  match s.portal id with
  | none => Except.error portal_error.mislinked_portal
  | some q =>
    let sides : Option (Fin 2 × Option node_ref) :=
      if q.nodes.1 = some node then some (0, q.nodes.2)
      else if q.nodes.2 = some node then some (1, q.nodes.1)
      else none
    match sides with
    | none => Except.error portal_error.mislinked_portal
    | some (_, none) => Except.error portal_error.mislinked_portal
    | some (side, some other) =>
      let s1 := unlink_portal s id
      match g.ClassifyWinding q.winding planenum with
      | side_t.FRONT => Except.ok (link_to_child s1 id side f other)
      | side_t.BACK => Except.ok (link_to_child s1 id side b other)
      | side_t.ON =>
        if g.OnPlaneFront q.planenum planenum then Except.ok (link_to_child s1 id side f other)
        else Except.ok (link_to_child s1 id side b other)
      | side_t.CROSS =>
        match g.ClipWinding q.winding planenum with
        | (none, none) => Except.error portal_error.clip_failed
        | (some fw, none) =>
          Except.ok (link_to_child (set_winding s1 id (some fw)) id side f other)
        | (none, some bw) =>
          Except.ok (link_to_child (set_winding s1 id (some bw)) id side b other)
        | (some fw, some bw) =>
          let s2 := link_to_child (set_winding s1 id (some fw)) id side f other
          let r := s2.new_portal { q with nodes := (none, none), winding := some bw }
          Except.ok (link_to_child r.1 r.2 side b other)

/-- The loop of `SplitNodePortals` over the incoming portals of the node. -/
def SplitNodePortals_loop (g : geometry_t) (planenum : Int) (path : List (Fin 2)) :
    List Nat → portal_graph → Except portal_error portal_graph
  | [], s => Except.ok s
  | id :: rest, s =>
    match split_portal g planenum path s id with
    | Except.error e => Except.error e
    | Except.ok s1 => SplitNodePortals_loop g planenum path rest s1

/-- Modelled from the spec: `SplitNodePortals(node)` (section 4.3, steps 1 to 3): every
incoming portal of the node is treated in turn, in the order of the portal
list of the node. -/
def SplitNodePortals (g : geometry_t) (planenum : Int) (path : List (Fin 2))
    (s : portal_graph) : Except portal_error portal_graph :=
  SplitNodePortals_loop g planenum path (s.list (node_ref.in_tree path)) s

/-- Modelled from the spec: the recursive descent of section 4.3. At an internal node
the portal on its splitting plane is constructed first (section 5), then its
incoming portals are distributed to its children, then the descent goes into
the front child and into the back child; it stops at a leaf. -/
def MakeTreePortals_r (g : geometry_t) :
    node_t → List (Fin 2) → portal_graph → Except portal_error portal_graph
  | node_t.leaf _, _, s => Except.ok s
  | node_t.internal planenum front back, path, s =>
    match SplitNodePortals g planenum path (MakeNodePortal g planenum path s) with
    | Except.error e => Except.error e
    | Except.ok s1 =>
      match MakeTreePortals_r g front (0 :: path) s1 with
      | Except.error e => Except.error e
      | Except.ok s2 => MakeTreePortals_r g back (1 :: path) s2

/-- The check of section 7 that no leaf is left with zero portals. -/
def every_leaf_has_portals (s : portal_graph) : node_t → List (Fin 2) → Bool
  | node_t.leaf _, path => !(s.list (node_ref.in_tree path)).isEmpty
  | node_t.internal _ front back, path =>
    every_leaf_has_portals s front (0 :: path) && every_leaf_has_portals s back (1 :: path)

/-- Modelled from the spec: `MakeTreePortals(tree)` (section 2, control flow): generates
the boundary portals against the outside region, walks the tree splitting and
distributing the portals, and aborts when a leaf is left with zero portals
(section 7). The build starts from a tree without portals. -/
def MakeTreePortals (g : geometry_t) (tree : tree_t) : Except portal_error portal_graph :=
  match MakeHeadnodePortals g tree portal_graph.empty with
  | Except.error e => Except.error e
  | Except.ok s1 =>
    match MakeTreePortals_r g tree.headnode [] s1 with
    | Except.error e => Except.error e
    | Except.ok s2 =>
      if every_leaf_has_portals s2 tree.headnode [] then Except.ok s2
      else Except.error portal_error.leaf_without_portals

/-- The freeing of the portals of a list: each one is unlinked from the two
regions it borders and its record is deleted (`delete p`). -/
def free_portals : List Nat → portal_graph → portal_graph
  | [], s => s
  | id :: rest, s => free_portals rest ((unlink_portal s id).set_portal id none)

/-- Modelled from the spec: `FreeTreePortals_r(node)` (section 4.5): recursively frees
every portal reachable from the node and resets the portal list of every
region below it to empty. -/
def FreeTreePortals_r : node_t → List (Fin 2) → portal_graph → portal_graph
  | node_t.leaf _, path, s =>
    (free_portals (s.list (node_ref.in_tree path)) s).set_list (node_ref.in_tree path) []
  | node_t.internal _ front back, path, s =>
    let s1 := FreeTreePortals_r front (0 :: path) s
    let s2 := FreeTreePortals_r back (1 :: path) s1
    (free_portals (s2.list (node_ref.in_tree path)) s2).set_list (node_ref.in_tree path) []

/-- Modelled from the spec: `AssertNoPortals(node)`: the assertion that the portal list
of the node is empty. -/
def AssertNoPortals (s : portal_graph) (n : node_ref) : Bool :=
  (s.list n).isEmpty

/-- The paths of the nodes of the subtree of `node`, itself at `path`. -/
def node_paths : node_t → List (Fin 2) → List (List (Fin 2))
  | node_t.leaf _, path => [path]
  | node_t.internal _ front back, path =>
    path :: (node_paths front (0 :: path) ++ node_paths back (1 :: path))

/-- The paths of the leaves of the subtree of `node`, itself at `path`. -/
def leaf_paths : node_t → List (Fin 2) → List (List (Fin 2))
  | node_t.leaf _, path => [path]
  | node_t.internal _ front back, path =>
    leaf_paths front (0 :: path) ++ leaf_paths back (1 :: path)

/-- The representation invariant of the portal graph: no portal list has a
repetition, every entry of the portal list of a region is a live portal with
that region as one of its two sides, every side of a live portal has the
portal in its list, and the two sides of a portal are different regions. -/
structure well_linked (s : portal_graph) : Prop where
  nodup : ∀ n, (s.list n).Nodup
  list_side : ∀ n id, id ∈ s.list n →
    ∃ q, s.portal id = some q ∧ (q.nodes.1 = some n ∨ q.nodes.2 = some n)
  side_list : ∀ id q n, s.portal id = some q →
    (q.nodes.1 = some n ∨ q.nodes.2 = some n) → id ∈ s.list n
  sides_ne : ∀ id q n, s.portal id = some q → ¬ (q.nodes.1 = some n ∧ q.nodes.2 = some n)

/-- Every side of every live portal satisfies `P`. -/
def sides_satisfy (s : portal_graph) (P : node_ref → Prop) : Prop :=
  ∀ id q n, s.portal id = some q → (q.nodes.1 = some n ∨ q.nodes.2 = some n) → P n

/-- A region lies strictly below the node at `path` in the tree. -/
def strictly_below (path : List (Fin 2)) : node_ref → Prop
  | node_ref.outside_node => False
  | node_ref.in_tree p => ∃ e, e ≠ [] ∧ p = e ++ path

/-- A region is the node at `path` or lies below it. -/
def at_or_below (path : List (Fin 2)) : node_ref → Prop
  | node_ref.outside_node => False
  | node_ref.in_tree p => path <:+ p

/-- The two regions that border the boundary portals. -/
def is_root_or_outside (n : node_ref) : Prop :=
  n = node_ref.in_tree [] ∨ n = node_ref.outside_node

/-- Two points differ by one unit along exactly one axis. -/
def unit_step (a b : qvec3d) : Bool :=
  decide ((a.x - b.x).natAbs + (a.y - b.y).natAbs + (a.z - b.z).natAbs = 1)

/-- A winding is an axis-aligned unit square: four distinct points, each one
unit step away from the next, the last from the first. -/
def is_unit_square : winding_t → Bool
  | [a, b, c, d] =>
    unit_step a b && unit_step b c && unit_step c d && unit_step d a
      && decide (a ≠ c) && decide (b ≠ d)
  | _ => false

/-- A winding lies on the given face of the box: all its points are in the box
and on the plane of the face. -/
def on_face (bx : aabb3d) (axis : Fin 3) (maxside : Bool) (w : winding_t) : Bool :=
  w.all (fun p =>
    decide (p.get axis = bx.face_dist axis maxside)
      && decide (bx.mins.x ≤ p.x ∧ p.x ≤ bx.maxs.x)
      && decide (bx.mins.y ≤ p.y ∧ p.y ≤ bx.maxs.y)
      && decide (bx.mins.z ≤ p.z ∧ p.z ≤ bx.maxs.z))

/-- The unit cube. -/
def unit_cube : aabb3d := { mins := { x := 0, y := 0, z := 0 }, maxs := { x := 1, y := 1, z := 1 } }

/-- The portal `id` of the graph is live, has the winding `w`, and borders the
headnode on its first side and the outside region on its second. -/
def is_boundary_portal (s : portal_graph) (id : Nat) (w : winding_t) : Prop :=
  ∃ q, s.portal id = some q ∧ q.winding = some w
    ∧ q.nodes = (some (node_ref.in_tree []), some node_ref.outside_node)

/-- A geometry for the examples: every winding straddles every plane and is
clipped into two copies of itself; the portal of a splitting plane has no
winding. -/
def example_geometry : geometry_t :=
  { FindPlane := fun axis maxside _ => if maxside then axis.val + 3 else axis.val
    ClassifyWinding := fun _ _ => side_t.CROSS
    ClipWinding := fun w _ => (w, w)
    OnPlaneFront := fun _ _ => true
    NodeWinding := fun _ _ => none }

/-- A tree for the examples: the unit cube, a headnode split once into two leaves. -/
def example_tree : tree_t :=
  { headnode := node_t.internal 6 (node_t.leaf 0) (node_t.leaf 0), bounds := unit_cube }

/-- The portal graph of the example tree. -/
def example_graph : portal_graph :=
  match MakeTreePortals example_geometry example_tree with
  | Except.ok s => s
  | Except.error _ => portal_graph.empty

/-- The record of portal 0 in the portal graph of the example tree. -/
def example_portal : portal_t :=
  { planenum := 0
    onnode := none
    nodes := (some (node_ref.in_tree [0]), some node_ref.outside_node)
    winding := some (unit_cube.face_winding 0 false) }

/-! # Theorems -/

/-! ## string_replaceall -/

theorem splitAtOccurrences_ne_nil (pat s : List Char) : splitAtOccurrences pat s ≠ [] := by
  cases s with
  | nil => rw [splitAtOccurrences]; simp
  | cons c t =>
    rw [splitAtOccurrences]
    split
    · simp
    · split <;> simp

theorem intercalate_cons_cons (sep a b : List Char) (l : List (List Char)) :
    List.intercalate sep (a :: b :: l) = a ++ sep ++ List.intercalate sep (b :: l) := by
  simp [List.intercalate, List.intersperse]

theorem intercalate_nil_cons (sep : List Char) (l : List (List Char)) (hl : l ≠ []) :
    List.intercalate sep ([] :: l) = sep ++ List.intercalate sep l := by
  cases l with
  | nil => exact absurd rfl hl
  | cons b l => simp [intercalate_cons_cons]

theorem intercalate_cons_head (sep : List Char) (c : Char) (p : List Char)
    (ps : List (List Char)) :
    List.intercalate sep ((c :: p) :: ps) = c :: List.intercalate sep (p :: ps) := by
  cases ps with
  | nil => simp [List.intercalate, List.intersperse]
  | cons b l => simp [intercalate_cons_cons]

theorem joinedPieces_nil (pat to_ : List Char) : joinedPieces pat to_ [] = [] := by
  unfold joinedPieces
  rw [splitAtOccurrences]
  simp [List.intercalate, List.intersperse]

theorem joinedPieces_match (pat to_ : List Char) (c : Char) (t : List Char)
    (h : pat ≠ [] ∧ pat <+: (c :: t)) :
    joinedPieces pat to_ (c :: t) = to_ ++ joinedPieces pat to_ ((c :: t).drop pat.length) := by
  unfold joinedPieces
  rw [splitAtOccurrences, dif_pos h]
  exact intercalate_nil_cons _ _ (splitAtOccurrences_ne_nil _ _)

theorem joinedPieces_nomatch (pat to_ : List Char) (c : Char) (t : List Char)
    (h : ¬ (pat ≠ [] ∧ pat <+: (c :: t))) :
    joinedPieces pat to_ (c :: t) = c :: joinedPieces pat to_ t := by
  unfold joinedPieces
  rw [splitAtOccurrences, dif_neg h]
  cases hs : splitAtOccurrences pat t with
  | nil => exact absurd hs (splitAtOccurrences_ne_nil _ _)
  | cons p ps => exact intercalate_cons_head _ _ _ _

theorem string_find_append (done rest pat : List Char) :
    string_find (done ++ rest) pat done.length = string_find_aux pat rest done.length := by
  unfold string_find
  simp

/-- Loop invariant of `string_replaceall` for arguments that are objects other
than `str`: with `done` already rewritten and `start_pos` right after it, the
loop rewrites the rest and returns, provided the fuel exceeds the length of
the rest. -/
theorem string_replaceall_loop_spec (from_ to_ : List Char) (hf : from_ ≠ []) :
    ∀ n (rest : List Char), rest.length ≤ n → ∀ (done : List Char) (fuel : Nat),
      rest.length + 1 ≤ fuel →
      string_replaceall_loop (string_arg.other from_) (string_arg.other to_) fuel
          (done ++ rest) done.length
        = some (done ++ joinedPieces from_ to_ rest) := by
  intro n
  induction n with
  | zero =>
    intro rest hr done fuel hfu
    have : rest = [] := List.length_eq_zero.mp (by omega)
    subst this
    obtain ⟨f, rfl⟩ : ∃ f, fuel = f + 1 := ⟨fuel - 1, by simp at hfu; omega⟩
    rw [string_replaceall_loop]
    simp only [string_arg.value]
    rw [string_find_append]
    simp [string_find_aux, hf, joinedPieces_nil]
  | succ n ih =>
    intro rest hr done fuel hfu
    obtain ⟨f, rfl⟩ : ∃ f, fuel = f + 1 := ⟨fuel - 1, by omega⟩
    cases rest with
    | nil =>
      rw [string_replaceall_loop]
      simp only [string_arg.value]
      rw [string_find_append]
      simp [string_find_aux, hf, joinedPieces_nil]
    | cons c t =>
      by_cases hp : from_ <+: (c :: t)
      · rw [string_replaceall_loop]
        simp only [string_arg.value]
        rw [string_find_append]
        simp only [string_find_aux, if_pos hp]
        rw [joinedPieces_match from_ to_ c t ⟨hf, hp⟩]
        have hlen : 0 < from_.length := List.length_pos.mpr hf
        have hrep : string_replace (done ++ c :: t) done.length from_.length to_
            = (done ++ to_) ++ (c :: t).drop from_.length := by
          unfold string_replace
          simp [List.drop_append]
        have hpos : done.length + to_.length = (done ++ to_).length := by simp
        rw [hrep, hpos,
          ih _ (by simp at hr ⊢; omega) (done ++ to_) f (by simp at hfu ⊢; omega)]
        simp
      · have h1 : string_replaceall_loop (string_arg.other from_) (string_arg.other to_)
              (f + 1) (done ++ c :: t) done.length
            = string_replaceall_loop (string_arg.other from_) (string_arg.other to_)
                (f + 1) ((done ++ [c]) ++ t) (done ++ [c]).length := by
          have hs : done ++ c :: t = (done ++ [c]) ++ t := by simp
          rw [string_replaceall_loop, string_replaceall_loop]
          simp only [string_arg.value]
          rw [string_find_append, ← hs]
          have : string_find (done ++ c :: t) from_ (done ++ [c]).length
              = string_find_aux from_ t (done.length + 1) := by
            rw [hs, string_find_append]; simp
          rw [this]
          simp only [string_find_aux, if_neg hp]
        rw [h1, ih t (by simp at hr; omega) (done ++ [c]) (f + 1) (by simp at hfu ⊢; omega)]
        rw [joinedPieces_nomatch from_ to_ c t (fun h => hp h.2)]
        simp

/-- With `from` the object `str` itself and `to` empty, the loop on the empty
string never returns: the first replacement has emptied `from`, which is then
found at index 0 for ever. -/
theorem string_replaceall_loop_diverges :
    ∀ fuel, string_replaceall_loop string_arg.same_as_str (string_arg.other []) fuel [] 0
      = none := by
  intro fuel
  induction fuel with
  | zero => rfl
  | succ f ih =>
    rw [string_replaceall_loop]
    simpa [string_arg.value, string_find, string_find_aux, string_replace] using ih

/-- C6, as stated, fails when `from` or `to` is the object `str` itself, which
the reference parameters allow. With `to` the same object as `str`, the string
aa and `from` a, the code leaves aaa, not the pieces of aa joined with aa,
which are aaaa. With `from` the same object as `str`, the string a and `to`
empty, `from` is not empty at the call and the loop never returns. -/
theorem string_replaceall_aliased :
    string_replaceall 3 ['a', 'a'] (string_arg.other ['a']) string_arg.same_as_str
        = some ['a', 'a', 'a']
      ∧ List.intercalate ['a', 'a'] (splitAtOccurrences ['a'] ['a', 'a'])
        = ['a', 'a', 'a', 'a']
      ∧ (∀ fuel, string_replaceall fuel ['a', 'a'] (string_arg.other ['a'])
            string_arg.same_as_str
          ≠ some (List.intercalate ['a', 'a'] (splitAtOccurrences ['a'] ['a', 'a'])))
      ∧ string_arg.value ['a'] string_arg.same_as_str ≠ []
      ∧ (∀ fuel, string_replaceall fuel ['a'] string_arg.same_as_str (string_arg.other [])
          = none) := by
  have hj : List.intercalate ['a', 'a'] (splitAtOccurrences ['a'] ['a', 'a'])
      = ['a', 'a', 'a', 'a'] := by
    simp [splitAtOccurrences, List.intercalate, List.intersperse]
  refine ⟨by decide, hj, ?_, by decide, ?_⟩
  · intro fuel
    rw [hj]
    match fuel with
    | 0 => decide
    | 1 => decide
    | n + 2 =>
      simp [string_replaceall, string_replaceall_loop, string_arg.value, string_find,
        string_find_aux, string_replace]
  · intro fuel
    cases fuel with
    | zero => rfl
    | succ f =>
      have h := string_replaceall_loop_diverges f
      simp only [string_replaceall, string_arg.value]
      rw [string_replaceall_loop]
      simpa [string_arg.value, string_find, string_find_aux, string_replace] using h

/-- C6, amended: for every string `str`, every non-empty `from_` and every `to_`
that are objects other than `str`, `string_replaceall` returns (within
`str.length + 1` iterations of its loop) and leaves `str` equal to the pieces
obtained by splitting the original `str` at its leftmost non-overlapping
occurrences of `from_`, joined with `to_`. -/
theorem string_replaceall_eq_joined_pieces (str from_ to_ : List Char) (hf : from_ ≠ [])
    (fuel : Nat) (hfuel : str.length + 1 ≤ fuel) :
    string_replaceall fuel str (string_arg.other from_) (string_arg.other to_)
      = some (List.intercalate to_ (splitAtOccurrences from_ str)) := by
  unfold string_replaceall
  simp only [string_arg.value]
  rw [if_neg hf]
  have := string_replaceall_loop_spec from_ to_ hf str.length str (Nat.le_refl _) []
    fuel hfuel
  simpa [joinedPieces] using this

/-- Witness of C6 on the example of the source comment: replacing x with yx in axbx. -/
theorem string_replaceall_eq_joined_pieces_witness :
    ['x'] ≠ ([] : List Char) ∧ ['a', 'x', 'b', 'x'].length + 1 ≤ 5 ∧
    string_replaceall 5 ['a', 'x', 'b', 'x'] (string_arg.other ['x'])
        (string_arg.other ['y', 'x'])
      = some (List.intercalate ['y', 'x'] (splitAtOccurrences ['x'] ['a', 'x', 'b', 'x'])) :=
  ⟨by decide, by decide,
    string_replaceall_eq_joined_pieces ['a', 'x', 'b', 'x'] ['x'] ['y', 'x'] (by decide) 5
      (by decide)⟩

/-- The example of the source comment, evaluated: the inserted text is not rescanned. -/
theorem string_replaceall_axbx :
    string_replaceall 5 ['a', 'x', 'b', 'x'] (string_arg.other ['x'])
        (string_arg.other ['y', 'x'])
      = some ['a', 'y', 'x', 'b', 'y', 'x'] := by
  decide

/-- The pieces of the example are a, b and the empty string. -/
theorem splitAtOccurrences_axbx :
    splitAtOccurrences ['x'] ['a', 'x', 'b', 'x'] = [['a'], ['b'], []] := by
  simp [splitAtOccurrences]

/-- Occurrences do not overlap: aaa holds one occurrence of aa, the leftmost. -/
theorem splitAtOccurrences_aaa :
    splitAtOccurrences ['a', 'a'] ['a', 'a', 'a'] = [[], ['a']] := by
  simp [splitAtOccurrences]

/-- An empty `from_` leaves the string unchanged. -/
theorem string_replaceall_empty_from (fuel : Nat) (str : List Char) (to_ : string_arg) :
    string_replaceall fuel str (string_arg.other []) to_ = some str := by
  simp [string_replaceall, string_arg.value]

/-! ## CRC -/

theorem testBit_false_of_lt {m k i : Nat} (h : m < 2 ^ k) (hi : k ≤ i) : m.testBit i = false :=
  Nat.testBit_lt_two_pow (Nat.lt_of_lt_of_le h (Nat.pow_le_pow_right (by decide) hi))

theorem and_msb_xor_low (r m : Nat) (hm : m < 2 ^ 15) : (r ^^^ m) &&& 0x8000 = r &&& 0x8000 := by
  apply Nat.eq_of_testBit_eq
  intro i
  have h8 : (0x8000 : Nat) = 2 ^ 15 := by norm_num
  rw [h8]
  simp only [Nat.testBit_and, Nat.testBit_xor, Nat.testBit_two_pow]
  by_cases hi : 15 = i
  · subst hi
    simp [testBit_false_of_lt hm (Nat.le_refl 15)]
  · simp [hi]

theorem shl_xor_mod (a m : Nat) (hm : m < 2 ^ 15) :
    ((a ^^^ m) <<< 1) % 65536 = ((a <<< 1) % 65536) ^^^ (m <<< 1) := by
  apply Nat.eq_of_testBit_eq
  intro i
  have h : (65536 : Nat) = 2 ^ 16 := by norm_num
  rw [h]
  simp only [Nat.testBit_mod_two_pow, Nat.testBit_xor, Nat.testBit_shiftLeft]
  by_cases hi : i < 16
  · simp [hi]
    cases decide (1 ≤ i) <;> cases a.testBit (i-1) <;> cases m.testBit (i-1) <;> rfl
  · have : m.testBit (i - 1) = false := testBit_false_of_lt hm (by omega)
    simp [hi, this]

theorem shl_xor_poly_mod (p a m : Nat) (hm : m < 2 ^ 15) :
    (((a ^^^ m) <<< 1) ^^^ p) % 65536 = (((a <<< 1) ^^^ p) % 65536) ^^^ (m <<< 1) := by
  apply Nat.eq_of_testBit_eq
  intro i
  have h : (65536 : Nat) = 2 ^ 16 := by norm_num
  rw [h]
  simp only [Nat.testBit_mod_two_pow, Nat.testBit_xor, Nat.testBit_shiftLeft]
  by_cases hi : i < 16
  · simp [hi]
    cases decide (1 ≤ i) <;> cases a.testBit (i-1) <;> cases m.testBit (i-1) <;> cases p.testBit i <;> rfl
  · have : m.testBit (i - 1) = false := testBit_false_of_lt hm (by omega)
    simp [hi, this]

theorem crcShiftStep_xor_low (p r m : Nat) (hm : m < 2 ^ 15) :
    crcShiftStep p (r ^^^ m) = crcShiftStep p r ^^^ (m <<< 1) := by
  unfold crcShiftStep
  rw [and_msb_xor_low r m hm]
  split
  · exact shl_xor_poly_mod p r m hm
  · exact shl_xor_mod r m hm

theorem crcShiftStep_iterate_xor_low (p : Nat) (l : Nat) (hl : l < 256) :
    ∀ k, k ≤ 8 → ∀ x, (crcShiftStep p)^[k] (x ^^^ l) = (crcShiftStep p)^[k] x ^^^ (l <<< k) := by
  intro k
  induction k with
  | zero => intro _ x; simp
  | succ k ih =>
    intro hk x
    rw [Function.iterate_succ_apply', Function.iterate_succ_apply', ih (by omega) x]
    have hlt : l <<< k < 2 ^ 15 := by
      rw [Nat.shiftLeft_eq]
      calc l * 2 ^ k < 256 * 2 ^ k := Nat.mul_lt_mul_of_pos_right hl (Nat.pow_pos (by decide))
        _ ≤ 256 * 2 ^ 7 := Nat.mul_le_mul_left _ (Nat.pow_le_pow_right (by decide) (by omega))
        _ = 2 ^ 15 := by norm_num
    rw [crcShiftStep_xor_low p _ _ hlt, ← Nat.shiftLeft_add]

theorem split_hi_lo (r b : Nat) :
    r ^^^ (b <<< 8) = (((r >>> 8) ^^^ b) <<< 8) ^^^ (r % 256) := by
  apply Nat.eq_of_testBit_eq
  intro i
  have h : (256 : Nat) = 2 ^ 8 := by norm_num
  rw [h]
  simp only [Nat.testBit_mod_two_pow, Nat.testBit_xor, Nat.testBit_shiftLeft, Nat.testBit_shiftRight]
  by_cases hi : i < 8
  · have : ¬ (i ≥ 8) := by omega
    simp [hi, this]
  · have h1 : i ≥ 8 := by omega
    have h2 : 8 + (i - 8) = i := by omega
    simp [hi, h1, h2]

set_option maxRecDepth 100000 in
theorem table_lt : ∀ i : Fin 256, crctable.getD i.val 0 < 65536 := by decide

theorem shl8_xor_mod (r t : Nat) (ht : t < 2 ^ 16) :
    ((r <<< 8) ^^^ t) % 65536 = t ^^^ ((r % 256) <<< 8) := by
  apply Nat.eq_of_testBit_eq
  intro i
  have h : (65536 : Nat) = 2 ^ 16 := by norm_num
  have h' : (256 : Nat) = 2 ^ 8 := by norm_num
  rw [h, h']
  simp only [Nat.testBit_mod_two_pow, Nat.testBit_xor, Nat.testBit_shiftLeft]
  by_cases hi : i < 16
  · have : i - 8 < 8 ↔ True := by simp; omega
    simp [hi, this, Bool.xor_comm]
  · have : t.testBit i = false := testBit_false_of_lt ht (by omega)
    have h3 : ¬ (i - 8 < 8) := by omega
    simp [hi, this, h3]

set_option maxRecDepth 100000 in
theorem table_ok : ∀ i : Fin 256, crctable.getD i.val 0 = (crcShiftStep 0x1021)^[8] (i.val <<< 8) := by
  decide

theorem CRC_ProcessByte_eq_bitwise (r : Nat) (hr : r < 65536) (b : Fin 256) :
    CRC_ProcessByte r b = crcBitwiseByte 0x1021 r b := by
  unfold CRC_ProcessByte crcBitwiseByte
  have hh : (r >>> 8) ^^^ b.val < 256 := by
    have h1 : r >>> 8 < 2 ^ 8 := by
      rw [Nat.shiftRight_eq_div_pow]; omega
    exact Nat.xor_lt_two_pow h1 b.isLt
  rw [split_hi_lo, crcShiftStep_iterate_xor_low 0x1021 (r % 256) (Nat.mod_lt _ (by decide)) 8 (Nat.le_refl 8)]
  have ht := table_ok ⟨_, hh⟩
  have hl := table_lt ⟨_, hh⟩
  simp only at ht hl
  rw [← ht]
  exact shl8_xor_mod r _ hl

theorem crcBitwiseByte_lt (p r : Nat) (b : uint8_t) : crcBitwiseByte p r b < 65536 := by
  unfold crcBitwiseByte
  rw [show (8 : Nat) = 7 + 1 from rfl, Function.iterate_succ_apply']
  unfold crcShiftStep
  split <;> exact Nat.mod_lt _ (by decide)

theorem CRC_Block_loop_eq_foldl (bs : List uint8_t) :
    ∀ crc, CRC_Block_loop crc bs = bs.foldl CRC_ProcessByte crc := by
  induction bs with
  | nil => intro crc; rfl
  | cons b rest ih => intro crc; simp only [CRC_Block_loop, List.foldl_cons, ih]; rfl

theorem foldl_CRC_ProcessByte_eq_bitwise (bs : List uint8_t) :
    ∀ crc, crc < 65536 →
      bs.foldl CRC_ProcessByte crc = bs.foldl (crcBitwiseByte 0x1021) crc := by
  induction bs with
  | nil => intro crc _; rfl
  | cons b rest ih =>
    intro crc hcrc
    simp only [List.foldl_cons]
    rw [CRC_ProcessByte_eq_bitwise crc hcrc b]
    exact ih _ (crcBitwiseByte_lt _ _ _)

/-- The final xor `CRC_XOR_VALUE` is zero: `CRC_Value` returns its argument. -/
theorem CRC_Value_eq (crc : Nat) : CRC_Value crc = crc := by
  simp [CRC_Value, CRC_XOR_VALUE]

/-- The table-driven loop of `CRC_Block` equals the bit-by-bit CRC started at `0xffff`. -/
theorem CRC_Block_eq_crc16_ffff (bs : List uint8_t) :
    CRC_Block bs = crc16 0x1021 0xffff 0x0000 bs := by
  unfold CRC_Block crc16 CRC_Init CRC_INIT_VALUE
  rw [CRC_Block_loop_eq_foldl, foldl_CRC_ProcessByte_eq_bitwise bs _ (by decide)]
  simp

set_option maxRecDepth 100000 in
theorem crctable_length : crctable.length = 256 := by decide

set_option maxRecDepth 100000 in
theorem CRC_Block_ascii_123456789 : CRC_Block ascii_123456789 = 0x29B1 := by decide

set_option maxRecDepth 100000 in
theorem crc16_xmodem_ascii_123456789 : crc16_xmodem ascii_123456789 = 0x31C3 := by decide

/-- C4: for every byte sequence, `CRC_Block` returns the 16-bit non-reflected
(most-significant-bit-first) CRC of the sequence with polynomial `0x1021`,
initial value `0xffff` and final xor `0x0000`, computed bit by bit; each of the
256 entries `crctable[i]` equals the result of eight
shift-and-conditionally-xor-`0x1021` steps applied to `i << 8`. -/
theorem CRC_Block_is_bitwise_crc16 :
    (∀ bs : List uint8_t, CRC_Block bs = crc16 0x1021 0xffff 0x0000 bs) ∧
    crctable.length = 256 ∧
    (∀ i : Fin 256, crctable.getD i.val 0 = (crcShiftStep 0x1021)^[8] (i.val <<< 8)) :=
  ⟨CRC_Block_eq_crc16_ffff, crctable_length, table_ok⟩

/-- C5, as stated, fails: on the nine ASCII bytes 123456789 `CRC_Block` returns
`0x29B1`, while the CRC-16/XMODEM checksum of these bytes is `0x31C3`. -/
theorem CRC_Block_ne_xmodem :
    CRC_Block ascii_123456789 = 0x29B1 ∧
    crc16_xmodem ascii_123456789 = 0x31C3 ∧
    ¬ (∀ bs : List uint8_t, CRC_Block bs = crc16_xmodem bs) := by
  have h1 := CRC_Block_ascii_123456789
  have h2 := crc16_xmodem_ascii_123456789
  refine ⟨h1, h2, fun h => ?_⟩
  have h3 := h ascii_123456789
  rw [h1, h2] at h3
  exact absurd h3 (by decide)

/-- C5, amended: for every byte sequence `CRC_Block` equals the non-reflected
CRC-16 with the polynomial `0x1021` and no final xor, with initial value
`0xffff` (the value of `CRC_INIT_VALUE`) instead of the `0x0000` of
CRC-16/XMODEM; on the nine ASCII bytes 123456789 it is `0x29B1`. -/
theorem CRC_Block_is_crc16_init_ffff :
    (∀ bs : List uint8_t, CRC_Block bs = crc16 0x1021 0xffff 0x0000 bs) ∧
    CRC_Block ascii_123456789 = 0x29B1 :=
  ⟨CRC_Block_eq_crc16_ffff, CRC_Block_ascii_123456789⟩

/-! ## moonshot_dface_t -/

theorem numeric_cast_int32_to_int64 (v : int32_t) :
    numeric_cast_int32 v.to_int64 = Except.ok v := by
  unfold numeric_cast_int32 int32_t.to_int64
  simp only
  rw [dif_pos v.property]

/-- C7: for every `moonshot_dface_t` `d`, converting `d` to `mface_t` and
constructing a `moonshot_dface_t` from the result succeeds (the `numeric_cast`
of `planenum` to `int32_t` does not fail) and returns a value equal to `d` in
all seven fields. -/
theorem moonshot_dface_roundtrip (d : moonshot_dface_t) :
    ∃ d2 : moonshot_dface_t,
      moonshot_dface_t.of_mface d.to_mface = Except.ok d2 ∧
      d2.planenum = d.planenum ∧ d2.texinfo = d.texinfo ∧ d2.firstedge = d.firstedge ∧
      d2.numedges = d.numedges ∧ d2.styles = d.styles ∧ d2.lightofs = d.lightofs ∧
      d2.flags = d.flags := by
  refine ⟨d, ?_, rfl, rfl, rfl, rfl, rfl, rfl, rfl⟩
  unfold moonshot_dface_t.of_mface
  simp only [moonshot_dface_t.to_mface, numeric_cast_int32_to_int64]

/-! ## The portal graph -/

theorem lookup_list_cons (n m : node_ref) (l : List Nat) (rest : List (node_ref × List Nat)) :
    lookup_list n ((m, l) :: rest) = if m = n then l else lookup_list n rest := rfl

theorem list_set_list (s : portal_graph) (n m : node_ref) (l : List Nat) :
    (s.set_list n l).list m = if m = n then l else s.list m := by
  unfold portal_graph.set_list portal_graph.list
  simp only [lookup_list_cons]
  by_cases h : n = m
  · subst h; simp
  · have h2 : ¬ m = n := fun e => h e.symm
    simp [h, h2]

theorem list_set_list_same (s : portal_graph) (n : node_ref) (l : List Nat) :
    (s.set_list n l).list n = l := by
  rw [list_set_list]; simp

theorem list_set_list_other (s : portal_graph) (n m : node_ref) (l : List Nat) (h : m ≠ n) :
    (s.set_list n l).list m = s.list m := by
  rw [list_set_list]; simp [h]

theorem portal_set_list (s : portal_graph) (n : node_ref) (l : List Nat) (id : Nat) :
    (s.set_list n l).portal id = s.portal id := rfl

theorem list_set_portal (s : portal_graph) (id : Nat) (p : Option portal_t) (n : node_ref) :
    (s.set_portal id p).list n = s.list n := rfl

theorem portal_lt_length (s : portal_graph) (id : Nat) (q : portal_t)
    (h : s.portal id = some q) : id < s.portals.length := by
  unfold portal_graph.portal at h
  by_contra hn
  rw [List.getElem?_eq_none (by omega)] at h
  simp at h

theorem portal_set_portal (s : portal_graph) (id j : Nat) (p : Option portal_t)
    (hid : id < s.portals.length) :
    (s.set_portal id p).portal j = if j = id then p else s.portal j := by
  unfold portal_graph.set_portal portal_graph.portal
  simp only
  by_cases h : j = id
  · subst h
    simp [List.getElem?_set_self, hid]
  · have h2 : ¬ id = j := fun e => h e.symm
    simp [List.getElem?_set_ne h2, h]

theorem portal_set_portal_same (s : portal_graph) (id : Nat) (p : Option portal_t)
    (hid : id < s.portals.length) : (s.set_portal id p).portal id = p := by
  rw [portal_set_portal s id id p hid]; simp

theorem portal_set_portal_other (s : portal_graph) (id j : Nat) (p : Option portal_t)
    (h : j ≠ id) : (s.set_portal id p).portal j = s.portal j := by
  unfold portal_graph.set_portal portal_graph.portal
  simp only
  rw [List.getElem?_set_ne (fun e => h e.symm)]

theorem length_set_portal (s : portal_graph) (id : Nat) (p : Option portal_t) :
    (s.set_portal id p).portals.length = s.portals.length := by
  simp [portal_graph.set_portal]

theorem portal_length_eq_none (s : portal_graph) : s.portal s.portals.length = none := by
  unfold portal_graph.portal
  simp

theorem portal_new_portal (s : portal_graph) (p : portal_t) (j : Nat) :
    (s.new_portal p).1.portal j = if j = s.portals.length then some p else s.portal j := by
  unfold portal_graph.new_portal portal_graph.portal
  simp only
  by_cases h : j = s.portals.length
  · subst h; simp
  · rcases Nat.lt_or_gt_of_ne h with h1 | h1
    · simp [List.getElem?_append_left h1, h]
    · rw [List.getElem?_eq_none (by simp; omega), List.getElem?_eq_none (by omega)]
      simp [h]

theorem list_new_portal (s : portal_graph) (p : portal_t) (n : node_ref) :
    (s.new_portal p).1.list n = s.list n := rfl

theorem snd_new_portal (s : portal_graph) (p : portal_t) :
    (s.new_portal p).2 = s.portals.length := rfl

/-! ### Unlinking a portal -/

theorem list_remove_from_side (s : portal_graph) (id : Nat) (o : Option node_ref)
    (n : node_ref) :
    (remove_from_side s id o).list n = if o = some n then (s.list n).erase id else s.list n := by
  cases o with
  | none => simp [remove_from_side]
  | some m =>
    simp only [remove_from_side, list_set_list, Option.some.injEq]
    by_cases h : n = m
    · subst h; simp
    · have h2 : ¬ m = n := fun e => h e.symm
      simp [h, h2]

theorem portal_remove_from_side (s : portal_graph) (id : Nat) (o : Option node_ref) (j : Nat) :
    (remove_from_side s id o).portal j = s.portal j := by
  cases o <;> rfl

theorem length_remove_from_side (s : portal_graph) (id : Nat) (o : Option node_ref) :
    (remove_from_side s id o).portals.length = s.portals.length := by
  cases o <;> rfl

theorem portal_unlink_portal (s : portal_graph) (id : Nat) (q : portal_t)
    (hq : s.portal id = some q) (j : Nat) :
    (unlink_portal s id).portal j
      = if j = id then some { q with nodes := (none, none) } else s.portal j := by
  unfold unlink_portal
  simp only [hq]
  rw [portal_set_portal]
  · simp only [portal_remove_from_side]
  · simp only [length_remove_from_side]
    exact portal_lt_length s id q hq

theorem list_unlink_portal (s : portal_graph) (hs : well_linked s) (id : Nat) (q : portal_t)
    (hq : s.portal id = some q) (n : node_ref) :
    (unlink_portal s id).list n = (s.list n).erase id := by
  unfold unlink_portal
  simp only [hq]
  rw [list_set_portal, list_remove_from_side, list_remove_from_side]
  have hne := hs.sides_ne id q n hq
  by_cases h1 : q.nodes.1 = some n
  · have h2 : ¬ q.nodes.2 = some n := fun h => hne ⟨h1, h⟩
    simp [h1, h2]
  · by_cases h2 : q.nodes.2 = some n
    · simp [h1, h2]
    · simp only [h1, h2, if_false]
      have : id ∉ s.list n := by
        intro hmem
        obtain ⟨q2, hq2, hside⟩ := hs.list_side n id hmem
        rw [hq] at hq2
        cases hq2
        rcases hside with h | h
        · exact h1 h
        · exact h2 h
      exact (List.erase_of_not_mem this).symm

theorem length_unlink_portal (s : portal_graph) (id : Nat) :
    (unlink_portal s id).portals.length = s.portals.length := by
  unfold unlink_portal
  cases s.portal id with
  | none => rfl
  | some q => simp only [length_set_portal, length_remove_from_side]

theorem not_mem_unlink_portal (s : portal_graph) (hs : well_linked s) (id : Nat) (q : portal_t)
    (hq : s.portal id = some q) (n : node_ref) : id ∉ (unlink_portal s id).list n := by
  rw [list_unlink_portal s hs id q hq]
  exact fun h => (List.Nodup.mem_erase_iff (hs.nodup n)).mp h |>.1 rfl

theorem well_linked_unlink_portal (s : portal_graph) (hs : well_linked s) (id : Nat)
    (q : portal_t) (hq : s.portal id = some q) : well_linked (unlink_portal s id) := by
  constructor
  · intro n
    rw [list_unlink_portal s hs id q hq]
    exact (hs.nodup n).erase id
  · intro n j hj
    rw [list_unlink_portal s hs id q hq] at hj
    have hj2 := (List.Nodup.mem_erase_iff (hs.nodup n)).mp hj
    obtain ⟨q2, hq2, hside⟩ := hs.list_side n j hj2.2
    refine ⟨q2, ?_, hside⟩
    rw [portal_unlink_portal s id q hq, if_neg hj2.1]
    exact hq2
  · intro j q2 n hq2 hside
    rw [portal_unlink_portal s id q hq] at hq2
    by_cases hj : j = id
    · rw [if_pos hj] at hq2
      cases hq2
      simp at hside
    · rw [if_neg hj] at hq2
      rw [list_unlink_portal s hs id q hq]
      exact (List.mem_erase_of_ne hj).mpr (hs.side_list j q2 n hq2 hside)
  · intro j q2 n hq2
    rw [portal_unlink_portal s id q hq] at hq2
    by_cases hj : j = id
    · rw [if_pos hj] at hq2
      cases hq2
      simp
    · rw [if_neg hj] at hq2
      exact hs.sides_ne j q2 n hq2

theorem sides_satisfy_unlink_portal (s : portal_graph) (P : node_ref → Prop)
    (hP : sides_satisfy s P) (id : Nat) : sides_satisfy (unlink_portal s id) P := by
  cases hq : s.portal id with
  | none =>
    unfold unlink_portal
    simp only [hq]
    exact hP
  | some q =>
    intro j q2 n hq2 hside
    rw [portal_unlink_portal s id q hq] at hq2
    by_cases hj : j = id
    · rw [if_pos hj] at hq2
      cases hq2
      simp at hside
    · rw [if_neg hj] at hq2
      exact hP j q2 n hq2 hside

/-! ### Linking a portal -/

theorem portal_link_portal (s : portal_graph) (id : Nat) (q : portal_t)
    (hq : s.portal id = some q) (a b : node_ref) (j : Nat) :
    (link_portal s id a b).portal j
      = if j = id then some { q with nodes := (some a, some b) } else s.portal j := by
  unfold link_portal
  simp only [hq, portal_set_list]
  exact portal_set_portal s id j _ (portal_lt_length s id q hq)

theorem list_link_portal (s : portal_graph) (id : Nat) (q : portal_t)
    (hq : s.portal id = some q) (a b : node_ref) (hab : a ≠ b) (n : node_ref) :
    (link_portal s id a b).list n = if n = a ∨ n = b then id :: s.list n else s.list n := by
  unfold link_portal
  simp only [hq, list_set_list, list_set_portal]
  by_cases h1 : n = b
  · subst h1
    have : ¬ n = a := fun e => hab e.symm
    simp [this]
  · by_cases h2 : n = a
    · subst h2
      simp [h1]
    · simp [h1, h2]

theorem length_link_portal (s : portal_graph) (id : Nat) (a b : node_ref) :
    (link_portal s id a b).portals.length = s.portals.length := by
  unfold link_portal
  cases s.portal id with
  | none => rfl
  | some q => simp [portal_graph.set_list, portal_graph.set_portal]

theorem well_linked_link_portal (s : portal_graph) (hs : well_linked s) (id : Nat)
    (q : portal_t) (hq : s.portal id = some q) (hnone : q.nodes = (none, none))
    (a b : node_ref) (hab : a ≠ b) : well_linked (link_portal s id a b) := by
  have hfresh : ∀ n, id ∉ s.list n := by
    intro n hmem
    obtain ⟨q2, hq2, hside⟩ := hs.list_side n id hmem
    rw [hq] at hq2
    cases hq2
    simp [hnone] at hside
  constructor
  · intro n
    rw [list_link_portal s id q hq a b hab]
    split
    · exact List.nodup_cons.mpr ⟨hfresh n, hs.nodup n⟩
    · exact hs.nodup n
  · intro n j hj
    rw [list_link_portal s id q hq a b hab] at hj
    rw [portal_link_portal s id q hq]
    by_cases hji : j = id
    · subst hji
      rw [if_pos rfl]
      refine ⟨_, rfl, ?_⟩
      by_cases hn : n = a ∨ n = b
      · rcases hn with h | h
        · left; simp [h]
        · right; simp [h]
      · rw [if_neg hn] at hj
        exact absurd hj (hfresh n)
    · rw [if_neg hji]
      have : j ∈ s.list n := by
        split at hj
        · exact (List.mem_cons.mp hj).resolve_left hji
        · exact hj
      exact hs.list_side n j this
  · intro j q2 n hq2 hside
    rw [portal_link_portal s id q hq] at hq2
    rw [list_link_portal s id q hq a b hab]
    by_cases hji : j = id
    · subst hji
      rw [if_pos rfl] at hq2
      cases hq2
      simp only [Option.some.injEq] at hside
      have : n = a ∨ n = b := by
        rcases hside with h | h
        · exact Or.inl h.symm
        · exact Or.inr h.symm
      rw [if_pos this]
      exact List.mem_cons_self _ _
    · rw [if_neg hji] at hq2
      have := hs.side_list j q2 n hq2 hside
      split
      · exact List.mem_cons_of_mem _ this
      · exact this
  · intro j q2 n hq2
    rw [portal_link_portal s id q hq] at hq2
    by_cases hji : j = id
    · subst hji
      rw [if_pos rfl] at hq2
      cases hq2
      simp only [Option.some.injEq]
      rintro ⟨h1, h2⟩
      exact hab (h1.trans h2.symm)
    · rw [if_neg hji] at hq2
      exact hs.sides_ne j q2 n hq2

theorem sides_satisfy_link_portal (s : portal_graph) (P : node_ref → Prop)
    (hP : sides_satisfy s P) (id : Nat) (a b : node_ref) (ha : P a) (hb : P b) :
    sides_satisfy (link_portal s id a b) P := by
  cases hq : s.portal id with
  | none =>
    unfold link_portal
    simp only [hq]
    exact hP
  | some q =>
    intro j q2 n hq2 hside
    rw [portal_link_portal s id q hq] at hq2
    by_cases hj : j = id
    · rw [if_pos hj] at hq2
      cases hq2
      simp only [Option.some.injEq] at hside
      rcases hside with h | h
      · exact h ▸ ha
      · exact h ▸ hb
    · rw [if_neg hj] at hq2
      exact hP j q2 n hq2 hside

/-! ### Allocating a portal, assigning a winding -/

theorem portal_new_portal_old (s : portal_graph) (p : portal_t) (j : Nat) (q : portal_t)
    (hq : s.portal j = some q) : (s.new_portal p).1.portal j = some q := by
  rw [portal_new_portal, if_neg (Nat.ne_of_lt (portal_lt_length s j q hq))]
  exact hq

theorem portal_new_portal_new (s : portal_graph) (p : portal_t) :
    (s.new_portal p).1.portal (s.new_portal p).2 = some p := by
  rw [portal_new_portal, snd_new_portal, if_pos rfl]

theorem well_linked_new_portal (s : portal_graph) (hs : well_linked s) (p : portal_t)
    (hnone : p.nodes = (none, none)) : well_linked (s.new_portal p).1 := by
  constructor
  · intro n
    exact hs.nodup n
  · intro n j hj
    obtain ⟨q, hq, hside⟩ := hs.list_side n j hj
    exact ⟨q, portal_new_portal_old s p j q hq, hside⟩
  · intro j q n hq hside
    rw [portal_new_portal] at hq
    by_cases hj : j = s.portals.length
    · rw [if_pos hj] at hq
      cases hq
      simp [hnone] at hside
    · rw [if_neg hj] at hq
      exact hs.side_list j q n hq hside
  · intro j q n hq
    rw [portal_new_portal] at hq
    by_cases hj : j = s.portals.length
    · rw [if_pos hj] at hq
      cases hq
      simp [hnone]
    · rw [if_neg hj] at hq
      exact hs.sides_ne j q n hq

theorem sides_satisfy_new_portal (s : portal_graph) (P : node_ref → Prop)
    (hP : sides_satisfy s P) (p : portal_t) (hnone : p.nodes = (none, none)) :
    sides_satisfy (s.new_portal p).1 P := by
  intro j q n hq hside
  rw [portal_new_portal] at hq
  by_cases hj : j = s.portals.length
  · rw [if_pos hj] at hq
    cases hq
    simp [hnone] at hside
  · rw [if_neg hj] at hq
    exact hP j q n hq hside

theorem portal_set_winding (s : portal_graph) (id : Nat) (q : portal_t)
    (hq : s.portal id = some q) (w : Option winding_t) (j : Nat) :
    (set_winding s id w).portal j
      = if j = id then some { q with winding := w } else s.portal j := by
  unfold set_winding
  simp only [hq]
  exact portal_set_portal s id j _ (portal_lt_length s id q hq)

theorem list_set_winding (s : portal_graph) (id : Nat) (w : Option winding_t) (n : node_ref) :
    (set_winding s id w).list n = s.list n := by
  unfold set_winding
  cases s.portal id <;> rfl

theorem well_linked_set_winding (s : portal_graph) (hs : well_linked s) (id : Nat)
    (w : Option winding_t) : well_linked (set_winding s id w) := by
  cases hq : s.portal id with
  | none =>
    unfold set_winding
    simp only [hq]
    exact hs
  | some q =>
    constructor
    · intro n
      rw [list_set_winding]
      exact hs.nodup n
    · intro n j hj
      rw [list_set_winding] at hj
      obtain ⟨q2, hq2, hside⟩ := hs.list_side n j hj
      rw [portal_set_winding s id q hq]
      by_cases hji : j = id
      · subst hji
        rw [hq] at hq2
        cases hq2
        rw [if_pos rfl]
        exact ⟨_, rfl, hside⟩
      · rw [if_neg hji]
        exact ⟨q2, hq2, hside⟩
    · intro j q2 n hq2 hside
      rw [list_set_winding]
      rw [portal_set_winding s id q hq] at hq2
      by_cases hji : j = id
      · subst hji
        rw [if_pos rfl] at hq2
        cases hq2
        exact hs.side_list j q n hq hside
      · rw [if_neg hji] at hq2
        exact hs.side_list j q2 n hq2 hside
    · intro j q2 n hq2
      rw [portal_set_winding s id q hq] at hq2
      by_cases hji : j = id
      · subst hji
        rw [if_pos rfl] at hq2
        cases hq2
        exact hs.sides_ne j q n hq
      · rw [if_neg hji] at hq2
        exact hs.sides_ne j q2 n hq2

theorem sides_satisfy_set_winding (s : portal_graph) (P : node_ref → Prop)
    (hP : sides_satisfy s P) (id : Nat) (w : Option winding_t) :
    sides_satisfy (set_winding s id w) P := by
  cases hq : s.portal id with
  | none =>
    unfold set_winding
    simp only [hq]
    exact hP
  | some q =>
    intro j q2 n hq2 hside
    rw [portal_set_winding s id q hq] at hq2
    by_cases hji : j = id
    · subst hji
      rw [if_pos rfl] at hq2
      cases hq2
      exact hP j q n hq hside
    · rw [if_neg hji] at hq2
      exact hP j q2 n hq2 hside

theorem sides_satisfy_mono (s : portal_graph) (P Q : node_ref → Prop)
    (h : ∀ n, P n → Q n) (hP : sides_satisfy s P) : sides_satisfy s Q :=
  fun j q n hq hside => h n (hP j q n hq hside)

/-- Allocating a portal with cleared sides and linking it between two different
regions keeps the graph well linked. -/
theorem well_linked_new_link (s : portal_graph) (hs : well_linked s) (p : portal_t)
    (hnone : p.nodes = (none, none)) (a b : node_ref) (hab : a ≠ b) :
    well_linked (link_portal (s.new_portal p).1 (s.new_portal p).2 a b) :=
  well_linked_link_portal _ (well_linked_new_portal s hs p hnone) _ p
    (portal_new_portal_new s p) hnone a b hab

theorem sides_satisfy_new_link (s : portal_graph) (P : node_ref → Prop)
    (hP : sides_satisfy s P) (p : portal_t) (hnone : p.nodes = (none, none))
    (a b : node_ref) (ha : P a) (hb : P b) :
    sides_satisfy (link_portal (s.new_portal p).1 (s.new_portal p).2 a b) P :=
  sides_satisfy_link_portal _ P (sides_satisfy_new_portal s P hP p hnone) _ a b ha hb

/-- Allocating and linking a portal leaves the records of the live portals alone. -/
theorem portal_new_link_old (s : portal_graph) (p : portal_t) (a b : node_ref) (j : Nat)
    (q : portal_t) (hq : s.portal j = some q) :
    (link_portal (s.new_portal p).1 (s.new_portal p).2 a b).portal j = some q := by
  rw [portal_link_portal _ _ p (portal_new_portal_new s p), snd_new_portal,
    if_neg (Nat.ne_of_lt (portal_lt_length s j q hq))]
  exact portal_new_portal_old s p j q hq

theorem list_new_link (s : portal_graph) (p : portal_t) (a b : node_ref) (hab : a ≠ b)
    (n : node_ref) :
    (link_portal (s.new_portal p).1 (s.new_portal p).2 a b).list n
      = if n = a ∨ n = b then s.portals.length :: s.list n else s.list n := by
  rw [list_link_portal _ _ p (portal_new_portal_new s p) a b hab]
  rfl

/-! ### The boundary portals -/

theorem well_linked_empty : well_linked portal_graph.empty := by
  constructor
  · intro n; exact List.nodup_nil
  · intro n id h; exact absurd h (List.not_mem_nil _)
  · intro id q n h; simp [portal_graph.empty, portal_graph.portal] at h
  · intro id q n h; simp [portal_graph.empty, portal_graph.portal] at h

theorem sides_satisfy_empty (P : node_ref → Prop) : sides_satisfy portal_graph.empty P := by
  intro id q n h
  simp [portal_graph.empty, portal_graph.portal] at h

theorem make_face_portal_inv (g : geometry_t) (b : aabb3d) (s : portal_graph)
    (face : Fin 3 × Bool) (hs : well_linked s) (hP : sides_satisfy s is_root_or_outside) :
    well_linked (make_face_portal g b s face)
      ∧ sides_satisfy (make_face_portal g b s face) is_root_or_outside := by
  unfold make_face_portal
  exact ⟨well_linked_new_link s hs _ rfl _ _ (by simp),
    sides_satisfy_new_link s _ hP _ rfl _ _ (Or.inl rfl) (Or.inr rfl)⟩

theorem foldl_make_face_portal_inv (g : geometry_t) (b : aabb3d) (faces : List (Fin 3 × Bool)) :
    ∀ s, well_linked s → sides_satisfy s is_root_or_outside →
      well_linked (faces.foldl (make_face_portal g b) s)
        ∧ sides_satisfy (faces.foldl (make_face_portal g b) s) is_root_or_outside := by
  induction faces with
  | nil => intro s hs hP; exact ⟨hs, hP⟩
  | cons f rest ih =>
    intro s hs hP
    have h := make_face_portal_inv g b s f hs hP
    exact ih _ h.1 h.2

theorem MakeHeadnodePortals_inv (g : geometry_t) (tree : tree_t) (s s1 : portal_graph)
    (hs : well_linked s) (hP : sides_satisfy s is_root_or_outside)
    (h : MakeHeadnodePortals g tree s = Except.ok s1) :
    well_linked s1 ∧ sides_satisfy s1 is_root_or_outside := by
  unfold MakeHeadnodePortals at h
  split at h
  · exact Except.noConfusion h
  · rw [← Except.ok.inj h]
    exact foldl_make_face_portal_inv g tree.bounds box_faces s hs hP

theorem link_to_child_inv (t : portal_graph) (id : Nat) (q0 : portal_t) (side : Fin 2)
    (child other : node_ref) (ht : well_linked t) (hq0 : t.portal id = some q0)
    (hnone : q0.nodes = (none, none)) (hne : child ≠ other) (Q : node_ref → Prop)
    (hQ : sides_satisfy t Q) (hc : Q child) (ho : Q other) :
    well_linked (link_to_child t id side child other)
      ∧ sides_satisfy (link_to_child t id side child other) Q
      ∧ (∀ j, j ≠ id → (link_to_child t id side child other).portal j = t.portal j)
      ∧ (∀ n, n ≠ child → n ≠ other →
          (link_to_child t id side child other).list n = t.list n) := by
  unfold link_to_child
  split
  · refine ⟨well_linked_link_portal t ht id q0 hq0 hnone _ _ hne,
      sides_satisfy_link_portal t Q hQ id _ _ hc ho,
      fun j hj => by rw [portal_link_portal t id q0 hq0, if_neg hj], fun n h1 h2 => ?_⟩
    rw [list_link_portal t id q0 hq0 _ _ hne, if_neg]
    rintro (h | h)
    · exact h1 h
    · exact h2 h
  · refine ⟨well_linked_link_portal t ht id q0 hq0 hnone _ _ (Ne.symm hne),
      sides_satisfy_link_portal t Q hQ id _ _ ho hc,
      fun j hj => by rw [portal_link_portal t id q0 hq0, if_neg hj], fun n h1 h2 => ?_⟩
    rw [list_link_portal t id q0 hq0 _ _ (Ne.symm hne), if_neg]
    rintro (h | h)
    · exact h2 h
    · exact h1 h

/-- Unlinking a portal, giving it a winding and linking it again between a
child and its other side keeps the graph well linked; the portal lists of the
other regions only lose the portal. -/
theorem relink_inv (s : portal_graph) (id : Nat) (q : portal_t) (side : Fin 2)
    (child other : node_ref) (w : Option winding_t) (hs : well_linked s)
    (hq : s.portal id = some q) (hne : child ≠ other) (Q : node_ref → Prop)
    (hQ : sides_satisfy s Q) (hc : Q child) (ho : Q other) :
    well_linked (link_to_child (set_winding (unlink_portal s id) id w) id side child other)
      ∧ sides_satisfy
          (link_to_child (set_winding (unlink_portal s id) id w) id side child other) Q
      ∧ (∀ j, j ≠ id →
          (link_to_child (set_winding (unlink_portal s id) id w) id side child other).portal j
            = s.portal j)
      ∧ (∀ n, n ≠ child → n ≠ other →
          (link_to_child (set_winding (unlink_portal s id) id w) id side child other).list n
            = (s.list n).erase id) := by
  have hu : (unlink_portal s id).portal id = some { q with nodes := (none, none) } := by
    rw [portal_unlink_portal s id q hq, if_pos rfl]
  have hw : (set_winding (unlink_portal s id) id w).portal id
      = some { q with nodes := (none, none), winding := w } := by
    rw [portal_set_winding _ id _ hu, if_pos rfl]
  have h := link_to_child_inv (set_winding (unlink_portal s id) id w) id _ side child other
    (well_linked_set_winding _ (well_linked_unlink_portal s hs id q hq) id w) hw rfl hne Q
    (sides_satisfy_set_winding _ Q (sides_satisfy_unlink_portal s Q hQ id) id w) hc ho
  refine ⟨h.1, h.2.1, fun j hj => ?_, fun n h1 h2 => ?_⟩
  · rw [h.2.2.1 j hj, portal_set_winding _ id _ hu, if_neg hj, portal_unlink_portal s id q hq,
      if_neg hj]
  · rw [h.2.2.2 n h1 h2, list_set_winding, list_unlink_portal s hs id q hq]

theorem set_winding_self (s : portal_graph) (id : Nat) (q : portal_t)
    (hq : s.portal id = some q) : set_winding s id q.winding = s := by
  unfold set_winding
  simp only [hq]
  unfold portal_graph.set_portal
  have : s.portals.set id (some q) = s.portals := by
    apply List.ext_getElem?
    intro j
    by_cases hj : id = j
    · subst hj
      rw [List.getElem?_set_self (portal_lt_length s id q hq)]
      unfold portal_graph.portal at hq
      cases h : s.portals[id]? with
      | none => rw [h] at hq; simp at hq
      | some o => rw [h] at hq; simp at hq; rw [hq]
    · rw [List.getElem?_set_ne hj]
  cases s
  simp_all

/-- Relinking without a change of winding. -/
theorem relink_same_winding_inv (s : portal_graph) (id : Nat) (q : portal_t) (side : Fin 2)
    (child other : node_ref) (hs : well_linked s)
    (hq : s.portal id = some q) (hne : child ≠ other) (Q : node_ref → Prop)
    (hQ : sides_satisfy s Q) (hc : Q child) (ho : Q other) :
    well_linked (link_to_child (unlink_portal s id) id side child other)
      ∧ sides_satisfy (link_to_child (unlink_portal s id) id side child other) Q
      ∧ (∀ j, j ≠ id →
          (link_to_child (unlink_portal s id) id side child other).portal j = s.portal j)
      ∧ (∀ n, n ≠ child → n ≠ other →
          (link_to_child (unlink_portal s id) id side child other).list n
            = (s.list n).erase id) := by
  have hu : (unlink_portal s id).portal id = some { q with nodes := (none, none) } := by
    rw [portal_unlink_portal s id q hq, if_pos rfl]
  have e := set_winding_self (unlink_portal s id) id _ hu
  simp only at e
  rw [← e]
  exact relink_inv s id q side child other q.winding hs hq hne Q hQ hc ho

/-- One incoming portal of a node: the treatment keeps the graph well linked,
leaves the records of the other live portals alone, and takes the portal out
of the portal list of the node. -/
theorem split_portal_inv (g : geometry_t) (planenum : Int) (path : List (Fin 2))
    (s s1 : portal_graph) (id : Nat) (hs : well_linked s) (Q : node_ref → Prop)
    (hQ : sides_satisfy s Q) (hQ0 : Q (node_ref.in_tree (0 :: path)))
    (hQ1 : Q (node_ref.in_tree (1 :: path)))
    (hR : ∀ q n, s.portal id = some q → (q.nodes.1 = some n ∨ q.nodes.2 = some n) →
      n ≠ node_ref.in_tree (0 :: path) ∧ n ≠ node_ref.in_tree (1 :: path))
    (h : split_portal g planenum path s id = Except.ok s1) :
    well_linked s1 ∧ sides_satisfy s1 Q
      ∧ (∀ j qj, j ≠ id → s.portal j = some qj → s1.portal j = some qj)
      ∧ s1.list (node_ref.in_tree path) = (s.list (node_ref.in_tree path)).erase id := by
  unfold split_portal at h
  cases hq : s.portal id with
  | none => rw [hq] at h; exact Except.noConfusion h
  | some q =>
    rw [hq] at h
    simp only at h
    have hnode0 : node_ref.in_tree path ≠ node_ref.in_tree (0 :: path) := by
      intro e
      exact List.cons_ne_self 0 path (node_ref.in_tree.inj e).symm
    have hnode1 : node_ref.in_tree path ≠ node_ref.in_tree (1 :: path) := by
      intro e
      exact List.cons_ne_self 1 path (node_ref.in_tree.inj e).symm
    have key : ∀ (side : Fin 2) (other : node_ref),
        (q.nodes.1 = some other ∨ q.nodes.2 = some other) →
        ∀ (child : node_ref), Q child →
          (child = node_ref.in_tree (0 :: path) ∨ child = node_ref.in_tree (1 :: path)) →
        ∀ w, well_linked (link_to_child (set_winding (unlink_portal s id) id w) id side child other)
          ∧ sides_satisfy
              (link_to_child (set_winding (unlink_portal s id) id w) id side child other) Q
          ∧ (∀ j, j ≠ id →
              (link_to_child (set_winding (unlink_portal s id) id w) id side child
                other).portal j = s.portal j)
          ∧ (∀ n, n ≠ child → n ≠ other →
              (link_to_child (set_winding (unlink_portal s id) id w) id side child
                other).list n = (s.list n).erase id) := by
      intro side other hother child hc hchild w
      have hne : child ≠ other := by
        have := hR q other hq hother
        rcases hchild with e | e
        · rw [e]; exact Ne.symm this.1
        · rw [e]; exact Ne.symm this.2
      exact relink_inv s id q side child other w hs hq hne Q hQ hc (hQ id q other hq hother)
    have key2 : ∀ (side : Fin 2) (other : node_ref),
        (q.nodes.1 = some other ∨ q.nodes.2 = some other) →
        ∀ (child : node_ref), Q child →
          (child = node_ref.in_tree (0 :: path) ∨ child = node_ref.in_tree (1 :: path)) →
        well_linked (link_to_child (unlink_portal s id) id side child other)
          ∧ sides_satisfy (link_to_child (unlink_portal s id) id side child other) Q
          ∧ (∀ j, j ≠ id →
              (link_to_child (unlink_portal s id) id side child other).portal j
                = s.portal j)
          ∧ (∀ n, n ≠ child → n ≠ other →
              (link_to_child (unlink_portal s id) id side child other).list n
                = (s.list n).erase id) := by
      intro side other hother child hc hchild
      have hne : child ≠ other := by
        have := hR q other hq hother
        rcases hchild with e | e
        · rw [e]; exact Ne.symm this.1
        · rw [e]; exact Ne.symm this.2
      exact relink_same_winding_inv s id q side child other hs hq hne Q hQ hc
        (hQ id q other hq hother)
    have frame : ∀ (t : portal_graph), (∀ j, j ≠ id → t.portal j = s.portal j) →
        ∀ j qj, j ≠ id → s.portal j = some qj → t.portal j = some qj :=
      fun t ht j qj hj hqj => (ht j hj).trans hqj
    split at h
    · exact Except.noConfusion h
    · exact Except.noConfusion h
    · rename_i side other hsides
      have hother : (q.nodes.1 = some other ∨ q.nodes.2 = some other)
          ∧ node_ref.in_tree path ≠ other := by
        by_cases h1 : q.nodes.1 = some (node_ref.in_tree path)
        · rw [if_pos h1] at hsides
          simp only [Option.some.injEq, Prod.mk.injEq] at hsides
          refine ⟨Or.inr hsides.2, fun e => ?_⟩
          exact hs.sides_ne id q _ hq ⟨h1, e ▸ hsides.2⟩
        · rw [if_neg h1] at hsides
          by_cases h2 : q.nodes.2 = some (node_ref.in_tree path)
          · rw [if_pos h2] at hsides
            simp only [Option.some.injEq, Prod.mk.injEq] at hsides
            refine ⟨Or.inl hsides.2, fun e => ?_⟩
            exact h1 (e ▸ hsides.2)
          · rw [if_neg h2] at hsides
            exact Option.noConfusion hsides
      obtain ⟨hother, hnode⟩ := hother
      split at h
      · rw [← Except.ok.inj h]
        have r := key2 side other hother _ hQ0 (Or.inl rfl)
        exact ⟨r.1, r.2.1, frame _ r.2.2.1, r.2.2.2 _ hnode0 hnode⟩
      · rw [← Except.ok.inj h]
        have r := key2 side other hother _ hQ1 (Or.inr rfl)
        exact ⟨r.1, r.2.1, frame _ r.2.2.1, r.2.2.2 _ hnode1 hnode⟩
      · split at h
        · rw [← Except.ok.inj h]
          have r := key2 side other hother _ hQ0 (Or.inl rfl)
          exact ⟨r.1, r.2.1, frame _ r.2.2.1, r.2.2.2 _ hnode0 hnode⟩
        · rw [← Except.ok.inj h]
          have r := key2 side other hother _ hQ1 (Or.inr rfl)
          exact ⟨r.1, r.2.1, frame _ r.2.2.1, r.2.2.2 _ hnode1 hnode⟩
      · split at h
        · exact Except.noConfusion h
        · rename_i fw hclip
          rw [← Except.ok.inj h]
          have r := key side other hother _ hQ0 (Or.inl rfl) (some fw)
          exact ⟨r.1, r.2.1, frame _ r.2.2.1, r.2.2.2 _ hnode0 hnode⟩
        · rename_i bw hclip
          rw [← Except.ok.inj h]
          have r := key side other hother _ hQ1 (Or.inr rfl) (some bw)
          exact ⟨r.1, r.2.1, frame _ r.2.2.1, r.2.2.2 _ hnode1 hnode⟩
        · rename_i fw bw hclip
          rw [← Except.ok.inj h]
          have r := key side other hother _ hQ0 (Or.inl rfl) (some fw)
          have hne : node_ref.in_tree (1 :: path) ≠ other :=
            Ne.symm (hR q other hq hother).2
          have ho : Q other := hQ id q other hq hother
          have r2 := link_to_child_inv
            (portal_graph.new_portal _ { q with nodes := (none, none), winding := some bw }).1
            (portal_graph.new_portal _ { q with nodes := (none, none), winding := some bw }).2
            _ side (node_ref.in_tree (1 :: path)) other
            (well_linked_new_portal _ r.1 _ rfl) (portal_new_portal_new _ _) rfl hne Q
            (sides_satisfy_new_portal _ Q r.2.1 _ rfl) hQ1 ho
          refine ⟨r2.1, r2.2.1, fun j qj hj hqj => ?_, ?_⟩
          · have hold := frame _ r.2.2.1 j qj hj hqj
            rw [r2.2.2.1 j (Nat.ne_of_lt (portal_lt_length _ j qj hold))]
            exact portal_new_portal_old _ _ j qj hold
          · rw [r2.2.2.2 _ hnode1 hnode, list_new_portal]
            exact r.2.2.2 _ hnode0 hnode

theorem SplitNodePortals_loop_inv (g : geometry_t) (planenum : Int) (path : List (Fin 2))
    (Q : node_ref → Prop) (hQ0 : Q (node_ref.in_tree (0 :: path)))
    (hQ1 : Q (node_ref.in_tree (1 :: path))) :
    ∀ (todo : List Nat) (s s1 : portal_graph), well_linked s → sides_satisfy s Q →
      todo.Nodup →
      (∀ id ∈ todo, ∃ q, s.portal id = some q ∧
        ∀ n, (q.nodes.1 = some n ∨ q.nodes.2 = some n) →
          n ≠ node_ref.in_tree (0 :: path) ∧ n ≠ node_ref.in_tree (1 :: path)) →
      SplitNodePortals_loop g planenum path todo s = Except.ok s1 →
      well_linked s1 ∧ sides_satisfy s1 Q := by
  intro todo
  induction todo with
  | nil =>
    intro s s1 hs hQ _ _ h
    rw [SplitNodePortals_loop] at h
    rw [← Except.ok.inj h]
    exact ⟨hs, hQ⟩
  | cons id rest ih =>
    intro s s1 hs hQ hnd htodo h
    rw [SplitNodePortals_loop] at h
    cases hsp : split_portal g planenum path s id with
    | error e => rw [hsp] at h; exact Except.noConfusion h
    | ok s2 =>
      rw [hsp] at h
      simp only at h
      obtain ⟨q, hq, hqR⟩ := htodo id (List.mem_cons_self _ _)
      have hR : ∀ q2 n, s.portal id = some q2 → (q2.nodes.1 = some n ∨ q2.nodes.2 = some n) →
          n ≠ node_ref.in_tree (0 :: path) ∧ n ≠ node_ref.in_tree (1 :: path) := by
        intro q2 n hq2 hside
        rw [hq] at hq2
        cases hq2
        exact hqR n hside
      have r := split_portal_inv g planenum path s s2 id hs Q hQ hQ0 hQ1 hR hsp
      have hnd2 := List.nodup_cons.mp hnd
      refine ih s2 s1 r.1 r.2.1 hnd2.2 ?_ h
      intro j hj
      obtain ⟨qj, hqj, hjR⟩ := htodo j (List.mem_cons_of_mem _ hj)
      have hne : j ≠ id := fun e => hnd2.1 (e ▸ hj)
      exact ⟨qj, r.2.2.1 j qj hne hqj, hjR⟩

/-- The loop takes every portal it treats out of the portal list of the node:
when the loop goes over the whole list, the list ends empty. -/
theorem SplitNodePortals_loop_list (g : geometry_t) (planenum : Int) (path : List (Fin 2))
    (Q : node_ref → Prop) (hQ0 : Q (node_ref.in_tree (0 :: path)))
    (hQ1 : Q (node_ref.in_tree (1 :: path))) :
    ∀ (todo : List Nat) (s s1 : portal_graph), well_linked s → sides_satisfy s Q →
      todo.Nodup →
      (∀ id ∈ todo, ∃ q, s.portal id = some q ∧
        ∀ n, (q.nodes.1 = some n ∨ q.nodes.2 = some n) →
          n ≠ node_ref.in_tree (0 :: path) ∧ n ≠ node_ref.in_tree (1 :: path)) →
      (∀ j ∈ s.list (node_ref.in_tree path), j ∈ todo) →
      SplitNodePortals_loop g planenum path todo s = Except.ok s1 →
      s1.list (node_ref.in_tree path) = [] := by
  intro todo
  induction todo with
  | nil =>
    intro s s1 _ _ _ _ hsub h
    rw [SplitNodePortals_loop] at h
    rw [← Except.ok.inj h]
    exact List.eq_nil_iff_forall_not_mem.mpr (fun j hj => List.not_mem_nil _ (hsub j hj))
  | cons id rest ih =>
    intro s s1 hs hQ hnd htodo hsub h
    rw [SplitNodePortals_loop] at h
    cases hsp : split_portal g planenum path s id with
    | error e => rw [hsp] at h; exact Except.noConfusion h
    | ok s2 =>
      rw [hsp] at h
      simp only at h
      obtain ⟨q, hq, hqR⟩ := htodo id (List.mem_cons_self _ _)
      have hR : ∀ q2 n, s.portal id = some q2 → (q2.nodes.1 = some n ∨ q2.nodes.2 = some n) →
          n ≠ node_ref.in_tree (0 :: path) ∧ n ≠ node_ref.in_tree (1 :: path) := by
        intro q2 n hq2 hside
        rw [hq] at hq2
        cases hq2
        exact hqR n hside
      have r := split_portal_inv g planenum path s s2 id hs Q hQ hQ0 hQ1 hR hsp
      have hnd2 := List.nodup_cons.mp hnd
      refine ih s2 s1 r.1 r.2.1 hnd2.2 ?_ ?_ h
      · intro j hj
        obtain ⟨qj, hqj, hjR⟩ := htodo j (List.mem_cons_of_mem _ hj)
        have hne : j ≠ id := fun e => hnd2.1 (e ▸ hj)
        exact ⟨qj, r.2.2.1 j qj hne hqj, hjR⟩
      · intro j hj
        rw [r.2.2.2] at hj
        have hj2 := (List.Nodup.mem_erase_iff (hs.nodup _)).mp hj
        exact (List.mem_cons.mp (hsub j hj2.2)).resolve_left hj2.1

theorem in_tree_cons_ne (i : Fin 2) (path : List (Fin 2)) :
    node_ref.in_tree path ≠ node_ref.in_tree (i :: path) := by
  intro h
  have := node_ref.in_tree.inj h
  exact List.cons_ne_self i path this.symm

theorem in_tree_children_ne (path : List (Fin 2)) :
    node_ref.in_tree (0 :: path) ≠ node_ref.in_tree (1 :: path) := by
  intro h
  have := node_ref.in_tree.inj h
  simp at this

theorem MakeNodePortal_inv (g : geometry_t) (planenum : Int) (path : List (Fin 2))
    (s : portal_graph) (hs : well_linked s) (Q : node_ref → Prop) (hQ : sides_satisfy s Q)
    (hQ0 : Q (node_ref.in_tree (0 :: path))) (hQ1 : Q (node_ref.in_tree (1 :: path))) :
    well_linked (MakeNodePortal g planenum path s)
      ∧ sides_satisfy (MakeNodePortal g planenum path s) Q
      ∧ (MakeNodePortal g planenum path s).list (node_ref.in_tree path)
          = s.list (node_ref.in_tree path)
      ∧ (∀ j q, s.portal j = some q → (MakeNodePortal g planenum path s).portal j = some q) := by
  unfold MakeNodePortal
  refine ⟨well_linked_new_link s hs _ rfl _ _ (in_tree_children_ne path),
    sides_satisfy_new_link s Q hQ _ rfl _ _ hQ0 hQ1, ?_,
    fun j q hq => portal_new_link_old s _ _ _ j q hq⟩
  rw [list_new_link s _ _ _ (in_tree_children_ne path)]
  rw [if_neg]
  rintro (h | h)
  · exact in_tree_cons_ne 0 path h
  · exact in_tree_cons_ne 1 path h

/-! ### Positions in the tree -/

theorem strictly_below_child (i : Fin 2) (path : List (Fin 2)) :
    strictly_below path (node_ref.in_tree (i :: path)) :=
  ⟨[i], by simp, rfl⟩

theorem strictly_below_of_child (i : Fin 2) (path : List (Fin 2)) (n : node_ref)
    (h : strictly_below (i :: path) n) : strictly_below path n := by
  cases n with
  | outside_node => exact h
  | in_tree p =>
    obtain ⟨e, _, hp⟩ := h
    exact ⟨e ++ [i], by simp, by simp [hp]⟩

theorem not_strictly_below_sibling (i j : Fin 2) (path : List (Fin 2)) :
    ¬ strictly_below (i :: path) (node_ref.in_tree (j :: path)) := by
  rintro ⟨e, he, hp⟩
  have hl := congrArg List.length hp
  simp at hl
  exact he hl

theorem at_or_below_of_child (i : Fin 2) (path : List (Fin 2)) (n : node_ref)
    (h : at_or_below (i :: path) n) : at_or_below path n := by
  cases n with
  | outside_node => exact h
  | in_tree p => exact List.IsSuffix.trans (List.suffix_cons i path) h

theorem at_or_below_child (i : Fin 2) (path : List (Fin 2)) :
    at_or_below path (node_ref.in_tree (i :: path)) :=
  List.suffix_cons i path

theorem not_strictly_below_of_at_or_below_sibling (path : List (Fin 2)) (n : node_ref)
    (h : at_or_below (0 :: path) n) : ¬ strictly_below (1 :: path) n := by
  cases n with
  | outside_node => exact fun h2 => h2
  | in_tree p =>
    rintro ⟨e, _, hp⟩
    have h2 : (1 :: path) <:+ p := ⟨e, hp.symm⟩
    have h3 : (0 :: path) <:+ (1 :: path) :=
      List.suffix_of_suffix_length_le h h2 (by simp)
    have h4 := List.IsSuffix.eq_of_length h3 (by simp)
    simp at h4

/-- The recursive descent keeps the graph well linked; the sides it introduces
are nodes of the subtree it descends into. -/
theorem MakeTreePortals_r_inv (g : geometry_t) (node : node_t) :
    ∀ (path : List (Fin 2)) (s s1 : portal_graph) (P : node_ref → Prop),
      well_linked s → sides_satisfy s P → (∀ n, P n → ¬ strictly_below path n) →
      MakeTreePortals_r g node path s = Except.ok s1 →
      well_linked s1 ∧ sides_satisfy s1 (fun n => P n ∨ at_or_below path n) := by
  induction node with
  | leaf c =>
    intro path s s1 P hs hP _ h
    rw [MakeTreePortals_r] at h
    rw [← Except.ok.inj h]
    exact ⟨hs, sides_satisfy_mono s P _ (fun n hn => Or.inl hn) hP⟩
  | internal planenum front back ihf ihb =>
    intro path s s1 P hs hP hbelow h
    rw [MakeTreePortals_r] at h
    let Q : node_ref → Prop := fun n =>
      P n ∨ n = node_ref.in_tree (0 :: path) ∨ n = node_ref.in_tree (1 :: path)
    have hQ0 : Q (node_ref.in_tree (0 :: path)) := Or.inr (Or.inl rfl)
    have hQ1 : Q (node_ref.in_tree (1 :: path)) := Or.inr (Or.inr rfl)
    have hm := MakeNodePortal_inv g planenum path s hs Q
      (sides_satisfy_mono s P Q (fun n hn => Or.inl hn) hP) hQ0 hQ1
    cases hsp : SplitNodePortals g planenum path (MakeNodePortal g planenum path s) with
    | error e => rw [hsp] at h; exact Except.noConfusion h
    | ok s2 =>
      rw [hsp] at h
      simp only at h
      unfold SplitNodePortals at hsp
      rw [hm.2.2.1] at hsp
      have h2 := SplitNodePortals_loop_inv g planenum path Q hQ0 hQ1 _ _ s2 hm.1 hm.2.1
        (hs.nodup _) (by
          intro id hid
          obtain ⟨q, hq, _⟩ := hs.list_side _ id hid
          refine ⟨q, hm.2.2.2 id q hq, fun n hside => ?_⟩
          have hn := hbelow n (hP id q n hq hside)
          constructor
          · intro e; exact hn (e ▸ strictly_below_child 0 path)
          · intro e; exact hn (e ▸ strictly_below_child 1 path)) hsp
      have hQbelow : ∀ (i : Fin 2) n, Q n → ¬ strictly_below (i :: path) n := by
        intro i n hn
        rcases hn with hn | hn | hn
        · exact fun hb => hbelow n hn (strictly_below_of_child i path n hb)
        · rw [hn]; exact not_strictly_below_sibling i 0 path
        · rw [hn]; exact not_strictly_below_sibling i 1 path
      cases hf : MakeTreePortals_r g front (0 :: path) s2 with
      | error e => rw [hf] at h; exact Except.noConfusion h
      | ok s3 =>
        rw [hf] at h
        simp only at h
        have h3 := ihf (0 :: path) s2 s3 Q h2.1 h2.2 (hQbelow 0) hf
        have h4 := ihb (1 :: path) s3 s1 _ h3.1 h3.2 (by
          intro n hn
          rcases hn with hn | hn
          · exact hQbelow 1 n hn
          · exact not_strictly_below_of_at_or_below_sibling path n hn) h
        refine ⟨h4.1, sides_satisfy_mono _ _ _ ?_ h4.2⟩
        intro n hn
        rcases hn with (hn | hn) | hn
        · rcases hn with hn | hn | hn
          · exact Or.inl hn
          · exact Or.inr (hn ▸ at_or_below_child 0 path)
          · exact Or.inr (hn ▸ at_or_below_child 1 path)
        · exact Or.inr (at_or_below_of_child 0 path n hn)
        · exact Or.inr (at_or_below_of_child 1 path n hn)

/-- Every graph built by `MakeTreePortals` is well linked. -/
theorem MakeTreePortals_well_linked (g : geometry_t) (tree : tree_t) (s : portal_graph)
    (h : MakeTreePortals g tree = Except.ok s) : well_linked s := by
  unfold MakeTreePortals at h
  cases h1 : MakeHeadnodePortals g tree portal_graph.empty with
  | error e => rw [h1] at h; exact Except.noConfusion h
  | ok s1 =>
    rw [h1] at h
    simp only at h
    have i1 := MakeHeadnodePortals_inv g tree _ s1 well_linked_empty (sides_satisfy_empty _) h1
    cases h2 : MakeTreePortals_r g tree.headnode [] s1 with
    | error e => rw [h2] at h; exact Except.noConfusion h
    | ok s2 =>
      rw [h2] at h
      simp only at h
      split at h
      · rw [← Except.ok.inj h]
        refine (MakeTreePortals_r_inv g tree.headnode [] s1 s2 is_root_or_outside i1.1 i1.2
          ?_ h2).1
        intro n hn
        rcases hn with hn | hn
        · rw [hn]
          rintro ⟨e, he, hp⟩
          simp at hp
          exact he hp
        · rw [hn]
          exact fun hb => hb
      · exact Except.noConfusion h

/-! ### The sides of the portals of a finished graph -/

theorem leaf_paths_suffix (node : node_t) :
    ∀ (path p : List (Fin 2)), p ∈ leaf_paths node path → path <:+ p := by
  induction node with
  | leaf c =>
    intro path p hp
    simp only [leaf_paths, List.mem_singleton] at hp
    rw [hp]
  | internal planenum front back ihf ihb =>
    intro path p hp
    simp only [leaf_paths, List.mem_append] at hp
    rcases hp with hp | hp
    · exact List.IsSuffix.trans (List.suffix_cons 0 path) (ihf _ p hp)
    · exact List.IsSuffix.trans (List.suffix_cons 1 path) (ihb _ p hp)

/-- After the descent into a subtree, the node at its root borders no portal any
more unless it is a leaf: the sides the descent introduces are leaves of the
subtree. -/
theorem MakeTreePortals_r_sides (g : geometry_t) (node : node_t) :
    ∀ (path : List (Fin 2)) (s s1 : portal_graph) (P : node_ref → Prop),
      well_linked s → sides_satisfy s P → (∀ n, P n → ¬ strictly_below path n) →
      MakeTreePortals_r g node path s = Except.ok s1 →
      sides_satisfy s1 (fun n =>
        (P n ∧ n ≠ node_ref.in_tree path) ∨ ∃ p ∈ leaf_paths node path, n = node_ref.in_tree p) := by
  induction node with
  | leaf c =>
    intro path s s1 P hs hP _ h
    rw [MakeTreePortals_r] at h
    rw [← Except.ok.inj h]
    intro id q n hq hside
    by_cases hn : n = node_ref.in_tree path
    · exact Or.inr ⟨path, by simp [leaf_paths], hn⟩
    · exact Or.inl ⟨hP id q n hq hside, hn⟩
  | internal planenum front back ihf ihb =>
    intro path s s1 P hs hP hbelow h
    rw [MakeTreePortals_r] at h
    let Q : node_ref → Prop := fun n =>
      P n ∨ n = node_ref.in_tree (0 :: path) ∨ n = node_ref.in_tree (1 :: path)
    have hQ0 : Q (node_ref.in_tree (0 :: path)) := Or.inr (Or.inl rfl)
    have hQ1 : Q (node_ref.in_tree (1 :: path)) := Or.inr (Or.inr rfl)
    have hm := MakeNodePortal_inv g planenum path s hs Q
      (sides_satisfy_mono s P Q (fun n hn => Or.inl hn) hP) hQ0 hQ1
    cases hsp : SplitNodePortals g planenum path (MakeNodePortal g planenum path s) with
    | error e => rw [hsp] at h; exact Except.noConfusion h
    | ok s2 =>
      rw [hsp] at h
      simp only at h
      unfold SplitNodePortals at hsp
      have htodo : ∀ id ∈ s.list (node_ref.in_tree path),
          ∃ q, (MakeNodePortal g planenum path s).portal id = some q ∧
            ∀ n, (q.nodes.1 = some n ∨ q.nodes.2 = some n) →
              n ≠ node_ref.in_tree (0 :: path) ∧ n ≠ node_ref.in_tree (1 :: path) := by
        intro id hid
        obtain ⟨q, hq, _⟩ := hs.list_side _ id hid
        refine ⟨q, hm.2.2.2 id q hq, fun n hside => ?_⟩
        have hn := hbelow n (hP id q n hq hside)
        constructor
        · intro e; exact hn (e ▸ strictly_below_child 0 path)
        · intro e; exact hn (e ▸ strictly_below_child 1 path)
      have h2 := SplitNodePortals_loop_inv g planenum path Q hQ0 hQ1 _ _ s2 hm.1 hm.2.1
        (by rw [hm.2.2.1]; exact hs.nodup _) (by rw [hm.2.2.1]; exact htodo) hsp
      have hempty := SplitNodePortals_loop_list g planenum path Q hQ0 hQ1 _ _ s2 hm.1 hm.2.1
        (by rw [hm.2.2.1]; exact hs.nodup _) (by rw [hm.2.2.1]; exact htodo)
        (fun j hj => hj) hsp
      let Q2 : node_ref → Prop := fun n => Q n ∧ n ≠ node_ref.in_tree path
      have hQ2 : sides_satisfy s2 Q2 := by
        intro id q n hq hside
        refine ⟨h2.2 id q n hq hside, fun e => ?_⟩
        have := h2.1.side_list id q n hq hside
        rw [e, hempty] at this
        exact List.not_mem_nil _ this
      have hQbelow : ∀ (i : Fin 2) n, Q n → ¬ strictly_below (i :: path) n := by
        intro i n hn
        rcases hn with hn | hn | hn
        · exact fun hb => hbelow n hn (strictly_below_of_child i path n hb)
        · rw [hn]; exact not_strictly_below_sibling i 0 path
        · rw [hn]; exact not_strictly_below_sibling i 1 path
      cases hf : MakeTreePortals_r g front (0 :: path) s2 with
      | error e => rw [hf] at h; exact Except.noConfusion h
      | ok s3 =>
        rw [hf] at h
        simp only at h
        have w3 := MakeTreePortals_r_inv g front (0 :: path) s2 s3 Q2 h2.1 hQ2
          (fun n hn => hQbelow 0 n hn.1) hf
        have h3 := ihf (0 :: path) s2 s3 Q2 h2.1 hQ2 (fun n hn => hQbelow 0 n hn.1) hf
        have h4 := ihb (1 :: path) s3 s1 _ w3.1 h3 (by
          intro n hn
          rcases hn with hn | ⟨p, hp, hn⟩
          · exact hQbelow 1 n hn.1.1
          · rw [hn]
            exact not_strictly_below_of_at_or_below_sibling path _
              (leaf_paths_suffix front _ p hp)) h
        refine sides_satisfy_mono _ _ _ ?_ h4
        intro n hn
        rcases hn with ⟨hn, hn1⟩ | ⟨p, hp, hn⟩
        · rcases hn with ⟨⟨hq, hnp⟩, hn0⟩ | ⟨p, hp, hn⟩
          · rcases hq with hq | hq | hq
            · exact Or.inl ⟨hq, hnp⟩
            · exact absurd hq hn0
            · exact absurd hq hn1
          · exact Or.inr ⟨p, by simp only [leaf_paths, List.mem_append]; exact Or.inl hp, hn⟩
        · exact Or.inr ⟨p, by simp only [leaf_paths, List.mem_append]; exact Or.inr hp, hn⟩

/-- In every graph built by `MakeTreePortals`, each side of each portal is the
outside region or a leaf of the tree. -/
theorem MakeTreePortals_sides_are_leaves (g : geometry_t) (tree : tree_t) (s : portal_graph)
    (h : MakeTreePortals g tree = Except.ok s) (id : Nat) (q : portal_t) (n : node_ref)
    (hq : s.portal id = some q) (hside : q.nodes.1 = some n ∨ q.nodes.2 = some n) :
    n = node_ref.outside_node ∨ ∃ p ∈ leaf_paths tree.headnode [], n = node_ref.in_tree p := by
  unfold MakeTreePortals at h
  cases h1 : MakeHeadnodePortals g tree portal_graph.empty with
  | error e => rw [h1] at h; exact Except.noConfusion h
  | ok s1 =>
    rw [h1] at h
    simp only at h
    have i1 := MakeHeadnodePortals_inv g tree _ s1 well_linked_empty (sides_satisfy_empty _) h1
    cases h2 : MakeTreePortals_r g tree.headnode [] s1 with
    | error e => rw [h2] at h; exact Except.noConfusion h
    | ok s2 =>
      rw [h2] at h
      simp only at h
      split at h
      · rw [← Except.ok.inj h] at hq
        have := MakeTreePortals_r_sides g tree.headnode [] s1 s2 is_root_or_outside i1.1 i1.2
          (by
            intro n hn
            rcases hn with hn | hn
            · rw [hn]
              rintro ⟨e, he, hp⟩
              simp at hp
              exact he hp
            · rw [hn]
              exact fun hb => hb) h2 id q n hq hside
        rcases this with ⟨hn, hne⟩ | hleaf
        · rcases hn with hn | hn
          · exact absurd hn hne
          · exact Or.inl hn
        · exact Or.inr hleaf
      · exact Except.noConfusion h

/-! ### The six boundary portals -/

theorem length_make_face_portal (g : geometry_t) (b : aabb3d) (s : portal_graph)
    (face : Fin 3 × Bool) :
    (make_face_portal g b s face).portals.length = s.portals.length + 1 := by
  unfold make_face_portal
  simp only [length_link_portal]
  simp [portal_graph.new_portal]

theorem portal_make_face_portal_new (g : geometry_t) (b : aabb3d) (s : portal_graph)
    (face : Fin 3 × Bool) :
    (make_face_portal g b s face).portal s.portals.length = some (face_portal g b face) := by
  unfold make_face_portal
  simp only
  rw [portal_link_portal _ _ _ (portal_new_portal_new s _), snd_new_portal, if_pos rfl]
  rfl

theorem portal_make_face_portal_old (g : geometry_t) (b : aabb3d) (s : portal_graph)
    (face : Fin 3 × Bool) (j : Nat) (q : portal_t) (hq : s.portal j = some q) :
    (make_face_portal g b s face).portal j = some q := by
  unfold make_face_portal
  exact portal_new_link_old s _ _ _ j q hq

theorem list_make_face_portal (g : geometry_t) (b : aabb3d) (s : portal_graph)
    (face : Fin 3 × Bool) (n : node_ref) :
    (make_face_portal g b s face).list n
      = if n = node_ref.in_tree [] ∨ n = node_ref.outside_node then
          s.portals.length :: s.list n
        else s.list n := by
  unfold make_face_portal
  exact list_new_link s _ _ _ (by simp) n

theorem foldl_make_face_portal_spec (g : geometry_t) (b : aabb3d)
    (faces : List (Fin 3 × Bool)) :
    ∀ s : portal_graph,
      (faces.foldl (make_face_portal g b) s).portals.length = s.portals.length + faces.length
      ∧ (∀ i face, faces[i]? = some face →
          (faces.foldl (make_face_portal g b) s).portal (s.portals.length + i)
            = some (face_portal g b face))
      ∧ (∀ j q, s.portal j = some q →
          (faces.foldl (make_face_portal g b) s).portal j = some q)
      ∧ ((faces.foldl (make_face_portal g b) s).list (node_ref.in_tree [])).length
          = (s.list (node_ref.in_tree [])).length + faces.length
      ∧ ((faces.foldl (make_face_portal g b) s).list node_ref.outside_node).length
          = (s.list node_ref.outside_node).length + faces.length := by
  induction faces with
  | nil =>
    intro s
    refine ⟨rfl, ?_, fun j q hq => hq, rfl, rfl⟩
    intro i face h
    simp at h
  | cons f rest ih =>
    intro s
    obtain ⟨h1, h2, h3, h4, h5⟩ := ih (make_face_portal g b s f)
    simp only [List.foldl_cons, List.length_cons]
    refine ⟨?_, ?_, ?_, ?_, ?_⟩
    · rw [h1, length_make_face_portal]; omega
    · intro i face hi
      cases i with
      | zero =>
        simp only [List.getElem?_cons_zero, Option.some.injEq] at hi
        rw [← hi]
        exact h3 _ _ (portal_make_face_portal_new g b s f)
      | succ i =>
        simp only [List.getElem?_cons_succ] at hi
        have := h2 i face hi
        rw [length_make_face_portal] at this
        rw [show s.portals.length + (i + 1) = s.portals.length + 1 + i by omega]
        exact this
    · intro j q hq
      exact h3 j q (portal_make_face_portal_old g b s f j q hq)
    · rw [h4, list_make_face_portal, if_pos (Or.inl rfl)]
      simp only [List.length_cons]; omega
    · rw [h5, list_make_face_portal, if_pos (Or.inr rfl)]
      simp only [List.length_cons]; omega

theorem unit_cube_faces :
    ∀ face ∈ box_faces,
      is_unit_square (unit_cube.face_winding face.1 face.2) = true
        ∧ on_face unit_cube face.1 face.2 (unit_cube.face_winding face.1 face.2) = true := by
  decide

theorem unit_cube_face_squares :
    ∀ w ∈ ([[⟨0, 0, 0⟩, ⟨0, 1, 0⟩, ⟨0, 1, 1⟩, ⟨0, 0, 1⟩],
            [⟨0, 0, 0⟩, ⟨1, 0, 0⟩, ⟨1, 0, 1⟩, ⟨0, 0, 1⟩],
            [⟨0, 0, 0⟩, ⟨1, 0, 0⟩, ⟨1, 1, 0⟩, ⟨0, 1, 0⟩],
            [⟨1, 0, 0⟩, ⟨1, 1, 0⟩, ⟨1, 1, 1⟩, ⟨1, 0, 1⟩],
            [⟨0, 1, 0⟩, ⟨1, 1, 0⟩, ⟨1, 1, 1⟩, ⟨0, 1, 1⟩],
            [⟨0, 0, 1⟩, ⟨1, 0, 1⟩, ⟨1, 1, 1⟩, ⟨0, 1, 1⟩]] : List winding_t),
      is_unit_square w = true := by
  decide

theorem is_boundary_portal_of_face (g : geometry_t) (s : portal_graph) (id : Nat)
    (face : Fin 3 × Bool) (w : winding_t)
    (hp : s.portal id = some (face_portal g unit_cube face))
    (hw : unit_cube.face_winding face.1 face.2 = w) : is_boundary_portal s id w :=
  ⟨_, hp, by rw [← hw]; rfl, rfl⟩

/-- C2: for a tree whose headnode is a single leaf with unit-cube bounds,
`MakeHeadnodePortals` (run on the tree without portals) succeeds and creates
exactly 6 portals, one on each face of the box: the unit squares in the planes
x = 0, y = 0, z = 0, x = 1, y = 1 and z = 1 with corners at the corners of the
cube. Each has the headnode leaf on one side and the `outside_node` of the
tree on the other, and the portal list of the leaf has length 6. -/
theorem MakeHeadnodePortals_unit_cube (g : geometry_t) (contents : Int) :
    ∃ s, MakeHeadnodePortals g
          { headnode := node_t.leaf contents,
            bounds := { mins := ⟨0, 0, 0⟩, maxs := ⟨1, 1, 1⟩ } }
          portal_graph.empty = Except.ok s
      ∧ s.portals.length = 6
      ∧ is_boundary_portal s 0 [⟨0, 0, 0⟩, ⟨0, 1, 0⟩, ⟨0, 1, 1⟩, ⟨0, 0, 1⟩]
      ∧ is_boundary_portal s 1 [⟨0, 0, 0⟩, ⟨1, 0, 0⟩, ⟨1, 0, 1⟩, ⟨0, 0, 1⟩]
      ∧ is_boundary_portal s 2 [⟨0, 0, 0⟩, ⟨1, 0, 0⟩, ⟨1, 1, 0⟩, ⟨0, 1, 0⟩]
      ∧ is_boundary_portal s 3 [⟨1, 0, 0⟩, ⟨1, 1, 0⟩, ⟨1, 1, 1⟩, ⟨1, 0, 1⟩]
      ∧ is_boundary_portal s 4 [⟨0, 1, 0⟩, ⟨1, 1, 0⟩, ⟨1, 1, 1⟩, ⟨0, 1, 1⟩]
      ∧ is_boundary_portal s 5 [⟨0, 0, 1⟩, ⟨1, 0, 1⟩, ⟨1, 1, 1⟩, ⟨0, 1, 1⟩]
      ∧ (∀ id w, is_boundary_portal s id w → id < 6 ∧ is_unit_square w = true)
      ∧ (s.list (node_ref.in_tree [])).length = 6
      ∧ (s.list node_ref.outside_node).length = 6 := by
  obtain ⟨h1, h2, _, h4, h5⟩ := foldl_make_face_portal_spec g unit_cube box_faces
    portal_graph.empty
  have hp : ∀ i face, box_faces[i]? = some face →
      (box_faces.foldl (make_face_portal g unit_cube) portal_graph.empty).portal i
        = some (face_portal g unit_cube face) := by
    intro i face hf
    simpa [portal_graph.empty] using h2 i face hf
  have hok : MakeHeadnodePortals g
        { headnode := node_t.leaf contents,
          bounds := { mins := ⟨0, 0, 0⟩, maxs := ⟨1, 1, 1⟩ } }
        portal_graph.empty
      = Except.ok (box_faces.foldl (make_face_portal g unit_cube) portal_graph.empty) := by
    unfold MakeHeadnodePortals
    have hd : unit_cube.degenerate = false := by decide
    have hu : ({ mins := ⟨0, 0, 0⟩, maxs := ⟨1, 1, 1⟩ } : aabb3d) = unit_cube := rfl
    simp only [hu, hd]
    rfl
  have hlen : (box_faces.foldl (make_face_portal g unit_cube) portal_graph.empty).portals.length
      = 6 := h1
  generalize box_faces.foldl (make_face_portal g unit_cube) portal_graph.empty = s
    at hok hlen hp h4 h5
  have b0 : is_boundary_portal s 0 [⟨0, 0, 0⟩, ⟨0, 1, 0⟩, ⟨0, 1, 1⟩, ⟨0, 0, 1⟩] :=
    is_boundary_portal_of_face g s 0 (0, false) _ (hp 0 _ rfl) (by decide)
  have b1 : is_boundary_portal s 1 [⟨0, 0, 0⟩, ⟨1, 0, 0⟩, ⟨1, 0, 1⟩, ⟨0, 0, 1⟩] :=
    is_boundary_portal_of_face g s 1 (1, false) _ (hp 1 _ rfl) (by decide)
  have b2 : is_boundary_portal s 2 [⟨0, 0, 0⟩, ⟨1, 0, 0⟩, ⟨1, 1, 0⟩, ⟨0, 1, 0⟩] :=
    is_boundary_portal_of_face g s 2 (2, false) _ (hp 2 _ rfl) (by decide)
  have b3 : is_boundary_portal s 3 [⟨1, 0, 0⟩, ⟨1, 1, 0⟩, ⟨1, 1, 1⟩, ⟨1, 0, 1⟩] :=
    is_boundary_portal_of_face g s 3 (0, true) _ (hp 3 _ rfl) (by decide)
  have b4 : is_boundary_portal s 4 [⟨0, 1, 0⟩, ⟨1, 1, 0⟩, ⟨1, 1, 1⟩, ⟨0, 1, 1⟩] :=
    is_boundary_portal_of_face g s 4 (1, true) _ (hp 4 _ rfl) (by decide)
  have b5 : is_boundary_portal s 5 [⟨0, 0, 1⟩, ⟨1, 0, 1⟩, ⟨1, 1, 1⟩, ⟨0, 1, 1⟩] :=
    is_boundary_portal_of_face g s 5 (2, true) _ (hp 5 _ rfl) (by decide)
  refine ⟨s, hok, hlen, b0, b1, b2, b3, b4, b5, ?_, h4, h5⟩
  intro id w hb
  have hlt : id < 6 := by
    obtain ⟨q, hq, _, _⟩ := hb
    have := portal_lt_length s id q hq
    omega
  refine ⟨hlt, ?_⟩
  have hsq := unit_cube_face_squares
  have pick : ∀ (j : Nat) (w0 : winding_t), j = id → is_boundary_portal s j w0 → w = w0 := by
    intro j w0 hj ⟨q0, hq0, hw0, _⟩
    obtain ⟨q, hq, hw, _⟩ := hb
    rw [hj, hq] at hq0
    rw [← Option.some.inj hq0, hw] at hw0
    exact Option.some.inj hw0
  have hcases : id = 0 ∨ id = 1 ∨ id = 2 ∨ id = 3 ∨ id = 4 ∨ id = 5 := by omega
  rcases hcases with e | e | e | e | e | e
  · rw [pick 0 _ e.symm b0]; exact hsq _ (by simp)
  · rw [pick 1 _ e.symm b1]; exact hsq _ (by simp)
  · rw [pick 2 _ e.symm b2]; exact hsq _ (by simp)
  · rw [pick 3 _ e.symm b3]; exact hsq _ (by simp)
  · rw [pick 4 _ e.symm b4]; exact hsq _ (by simp)
  · rw [pick 5 _ e.symm b5]; exact hsq _ (by simp)

/-! ### Symmetry of the portal graph -/

theorem example_graph_built :
    MakeTreePortals example_geometry example_tree = Except.ok example_graph := by
  rfl

theorem count_eq_one_of_mem_nodup (l : List Nat) (id : Nat) (hn : l.Nodup) (hm : id ∈ l) :
    l.count id = 1 :=
  List.count_eq_one_of_mem hn hm

/-- C1: in every portal graph produced by `MakeTreePortals`, for every portal `P`
(of id `id`) whose two sides `nodes[0]` and `nodes[1]` are regions `A` and `B`,
in particular leaves, `P` occurs exactly once in the portal list of `A` and
exactly once in the portal list of `B`, `A` and `B` are different regions, and
the regions whose portal list holds `P` are exactly `A` and `B`. -/
theorem MakeTreePortals_symmetry (g : geometry_t) (tree : tree_t) (s : portal_graph)
    (h : MakeTreePortals g tree = Except.ok s) (id : Nat) (P : portal_t) (A B : node_ref)
    (hP : s.portal id = some P) (hAB : P.nodes = (some A, some B)) :
    (s.list A).count id = 1 ∧ (s.list B).count id = 1 ∧ A ≠ B
      ∧ (∀ C, id ∈ s.list C ↔ (C = A ∨ C = B)) := by
  have hs := MakeTreePortals_well_linked g tree s h
  have hA : id ∈ s.list A := hs.side_list id P A hP (Or.inl (by rw [hAB]))
  have hB : id ∈ s.list B := hs.side_list id P B hP (Or.inr (by rw [hAB]))
  refine ⟨count_eq_one_of_mem_nodup _ id (hs.nodup A) hA,
    count_eq_one_of_mem_nodup _ id (hs.nodup B) hB, ?_, ?_⟩
  · intro e
    subst e
    exact hs.sides_ne id P A hP ⟨by rw [hAB], by rw [hAB]⟩
  · intro C
    constructor
    · intro hC
      obtain ⟨q, hq, hside⟩ := hs.list_side C id hC
      rw [hP] at hq
      cases hq
      rw [hAB] at hside
      simp only [Option.some.injEq] at hside
      rcases hside with e | e
      · exact Or.inl e.symm
      · exact Or.inr e.symm
    · rintro (e | e)
      · rw [e]; exact hA
      · rw [e]; exact hB

/-- Witness of C1: the portal graph of the unit cube split once; its portal 0,
the front half of the boundary portal of the first face, borders the front
leaf and the outside region. -/
theorem MakeTreePortals_symmetry_witness :
    MakeTreePortals example_geometry example_tree = Except.ok example_graph
      ∧ example_graph.portal 0 = some example_portal
      ∧ example_portal.nodes = (some (node_ref.in_tree [0]), some node_ref.outside_node)
      ∧ (example_graph.list (node_ref.in_tree [0])).count 0 = 1
      ∧ (example_graph.list node_ref.outside_node).count 0 = 1
      ∧ node_ref.in_tree [0] ≠ node_ref.outside_node
      ∧ (∀ C, 0 ∈ example_graph.list C
          ↔ (C = node_ref.in_tree [0] ∨ C = node_ref.outside_node)) :=
  ⟨example_graph_built, rfl, rfl,
    MakeTreePortals_symmetry example_geometry example_tree example_graph example_graph_built
      0 example_portal (node_ref.in_tree [0]) node_ref.outside_node rfl rfl⟩

/-! ### Teardown -/

theorem well_linked_congr (s t : portal_graph) (hl : ∀ n, t.list n = s.list n)
    (hp : ∀ j, t.portal j = s.portal j) (hs : well_linked s) : well_linked t := by
  constructor
  · intro n; rw [hl]; exact hs.nodup n
  · intro n id h; rw [hl] at h; rw [hp]; exact hs.list_side n id h
  · intro id q n h hside; rw [hp] at h; rw [hl]; exact hs.side_list id q n h hside
  · intro id q n h; rw [hp] at h; exact hs.sides_ne id q n h

theorem portal_set_portal_none (s : portal_graph) (id j : Nat) :
    (s.set_portal id none).portal j = if j = id then none else s.portal j := by
  by_cases hj : j = id
  · subst hj
    rw [if_pos rfl]
    unfold portal_graph.set_portal portal_graph.portal
    simp only
    by_cases hlt : j < s.portals.length
    · rw [List.getElem?_set_self hlt]; rfl
    · rw [List.getElem?_eq_none (by simp; omega)]; rfl
  · rw [if_neg hj]
    exact portal_set_portal_other s id j none hj

theorem free_one_inv (s : portal_graph) (hs : well_linked s) (id : Nat) :
    well_linked ((unlink_portal s id).set_portal id none)
      ∧ (∀ n j, j ∈ ((unlink_portal s id).set_portal id none).list n
          ↔ j ∈ s.list n ∧ j ≠ id)
      ∧ (∀ j, ((unlink_portal s id).set_portal id none).portal j
          = if j = id then none else s.portal j) := by
  have hlist : ∀ n j, j ∈ (unlink_portal s id).list n ↔ j ∈ s.list n ∧ j ≠ id := by
    intro n j
    cases hq : s.portal id with
    | none =>
      have e : unlink_portal s id = s := by
        unfold unlink_portal; simp only [hq]
      rw [e]
      constructor
      · intro hj
        refine ⟨hj, fun hji => ?_⟩
        obtain ⟨q, hq2, _⟩ := hs.list_side n j hj
        rw [hji, hq] at hq2
        exact Option.noConfusion hq2
      · exact fun h => h.1
    | some q =>
      rw [list_unlink_portal s hs id q hq, List.Nodup.mem_erase_iff (hs.nodup n)]
      exact ⟨fun h => ⟨h.2, h.1⟩, fun h => ⟨h.2, h.1⟩⟩
  have hportal : ∀ j, ((unlink_portal s id).set_portal id none).portal j
      = if j = id then none else s.portal j := by
    intro j
    rw [portal_set_portal_none]
    by_cases hj : j = id
    · simp [hj]
    · simp only [if_neg hj]
      cases hq : s.portal id with
      | none =>
        have e : unlink_portal s id = s := by
          unfold unlink_portal; simp only [hq]
        rw [e]
      | some q => rw [portal_unlink_portal s id q hq, if_neg hj]
  refine ⟨?_, fun n j => by rw [list_set_portal]; exact hlist n j, hportal⟩
  constructor
  · intro n
    rw [list_set_portal]
    cases hq : s.portal id with
    | none =>
      have e : unlink_portal s id = s := by
        unfold unlink_portal; simp only [hq]
      rw [e]; exact hs.nodup n
    | some q => exact (well_linked_unlink_portal s hs id q hq).nodup n
  · intro n j hj
    rw [list_set_portal] at hj
    have hj2 := (hlist n j).mp hj
    obtain ⟨q, hq, hside⟩ := hs.list_side n j hj2.1
    exact ⟨q, by rw [hportal, if_neg hj2.2]; exact hq, hside⟩
  · intro j q n hq hside
    rw [hportal] at hq
    by_cases hj : j = id
    · rw [if_pos hj] at hq; exact Option.noConfusion hq
    · rw [if_neg hj] at hq
      rw [list_set_portal]
      exact (hlist n j).mpr ⟨hs.side_list j q n hq hside, hj⟩
  · intro j q n hq
    rw [hportal] at hq
    by_cases hj : j = id
    · rw [if_pos hj] at hq; exact Option.noConfusion hq
    · rw [if_neg hj] at hq
      exact hs.sides_ne j q n hq

theorem free_portals_inv (ids : List Nat) :
    ∀ s : portal_graph, well_linked s →
      well_linked (free_portals ids s)
        ∧ (∀ n j, j ∈ (free_portals ids s).list n ↔ j ∈ s.list n ∧ j ∉ ids)
        ∧ (∀ j, (free_portals ids s).portal j = if j ∈ ids then none else s.portal j) := by
  induction ids with
  | nil =>
    intro s hs
    exact ⟨hs, fun n j => by simp [free_portals], fun j => by simp [free_portals]⟩
  | cons id rest ih =>
    intro s hs
    obtain ⟨h1, h2, h3⟩ := free_one_inv s hs id
    obtain ⟨k1, k2, k3⟩ := ih _ h1
    rw [free_portals]
    refine ⟨k1, ?_, ?_⟩
    · intro n j
      rw [k2, h2]
      simp only [List.mem_cons, not_or]
      tauto
    · intro j
      rw [k3, h3]
      by_cases hj : j = id
      · simp [hj]
      · by_cases hr : j ∈ rest
        · simp [hr]
        · simp [hj, hr]

/-- Freeing the portals of the list of a region and resetting the list. -/
theorem free_region_inv (s : portal_graph) (hs : well_linked s) (n0 : node_ref) :
    well_linked ((free_portals (s.list n0) s).set_list n0 [])
      ∧ (∀ n j, j ∈ ((free_portals (s.list n0) s).set_list n0 []).list n
          ↔ j ∈ s.list n ∧ j ∉ s.list n0)
      ∧ (∀ j, ((free_portals (s.list n0) s).set_list n0 []).portal j
          = if j ∈ s.list n0 then none else s.portal j)
      ∧ ((free_portals (s.list n0) s).set_list n0 []).list n0 = [] := by
  obtain ⟨h1, h2, h3⟩ := free_portals_inv (s.list n0) s hs
  have hempty : (free_portals (s.list n0) s).list n0 = [] := by
    apply List.eq_nil_iff_forall_not_mem.mpr
    intro j hj
    have := (h2 n0 j).mp hj
    exact this.2 this.1
  have hl : ∀ n, ((free_portals (s.list n0) s).set_list n0 []).list n
      = (free_portals (s.list n0) s).list n := by
    intro n
    rw [list_set_list]
    split
    · rename_i e; rw [e, hempty]
    · rfl
  refine ⟨well_linked_congr _ _ hl (fun j => rfl) h1, ?_, ?_, list_set_list_same _ _ _⟩
  · intro n j
    rw [hl, h2]
  · intro j
    rw [portal_set_list, h3]

/-- The teardown of a subtree: the graph stays well linked, the portal lists
only lose entries, every node of the subtree ends with an empty list, and a
portal that was in the list of a node of the subtree is in no list any more
and is deleted. -/
theorem FreeTreePortals_r_inv (node : node_t) :
    ∀ (path : List (Fin 2)) (s : portal_graph), well_linked s →
      well_linked (FreeTreePortals_r node path s)
        ∧ (∀ n j, j ∈ (FreeTreePortals_r node path s).list n → j ∈ s.list n)
        ∧ (∀ j q, (FreeTreePortals_r node path s).portal j = some q → s.portal j = some q)
        ∧ (∀ p ∈ node_paths node path,
            (FreeTreePortals_r node path s).list (node_ref.in_tree p) = [])
        ∧ (∀ j, (∃ p ∈ node_paths node path, j ∈ s.list (node_ref.in_tree p)) →
            (∀ n, j ∉ (FreeTreePortals_r node path s).list n)
              ∧ (FreeTreePortals_r node path s).portal j = none) := by
  induction node with
  | leaf c =>
    intro path s hs
    rw [FreeTreePortals_r]
    obtain ⟨h1, h2, h3, h4⟩ := free_region_inv s hs (node_ref.in_tree path)
    refine ⟨h1, fun n j hj => ((h2 n j).mp hj).1, ?_, ?_, ?_⟩
    · intro j q hq
      rw [h3] at hq
      split at hq
      · exact Option.noConfusion hq
      · exact hq
    · intro p hp
      simp only [node_paths, List.mem_singleton] at hp
      rw [hp]; exact h4
    · rintro j ⟨p, hp, hj⟩
      simp only [node_paths, List.mem_singleton] at hp
      rw [hp] at hj
      exact ⟨fun n hn => ((h2 n j).mp hn).2 hj, by rw [h3, if_pos hj]⟩
  | internal planenum front back ihf ihb =>
    intro path s hs
    rw [FreeTreePortals_r]
    obtain ⟨f1, f2, f3, f4, f5⟩ := ihf (0 :: path) s hs
    obtain ⟨b1, b2, b3, b4, b5⟩ := ihb (1 :: path) _ f1
    obtain ⟨h1, h2, h3, h4⟩ := free_region_inv _ b1 (node_ref.in_tree path)
    have hsub : ∀ n j,
        j ∈ ((free_portals
            ((FreeTreePortals_r back (1 :: path)
              (FreeTreePortals_r front (0 :: path) s)).list (node_ref.in_tree path))
            (FreeTreePortals_r back (1 :: path)
              (FreeTreePortals_r front (0 :: path) s))).set_list
              (node_ref.in_tree path) []).list n →
        j ∈ (FreeTreePortals_r back (1 :: path) (FreeTreePortals_r front (0 :: path) s)).list n :=
      fun n j hj => ((h2 n j).mp hj).1
    refine ⟨h1, fun n j hj => f2 n j (b2 n j (hsub n j hj)), ?_, ?_, ?_⟩
    · intro j q hq
      rw [h3] at hq
      split at hq
      · exact Option.noConfusion hq
      · exact f3 j q (b3 j q hq)
    · intro p hp
      simp only [node_paths, List.mem_cons, List.mem_append] at hp
      apply List.eq_nil_iff_forall_not_mem.mpr
      intro j hj
      rcases hp with hp | hp | hp
      · rw [hp, h4] at hj
        exact absurd hj (List.not_mem_nil _)
      · have := b2 _ j (hsub _ j hj)
        rw [f4 p hp] at this
        exact absurd this (List.not_mem_nil _)
      · have := hsub _ j hj
        rw [b4 p hp] at this
        exact absurd this (List.not_mem_nil _)
    · rintro j ⟨p, hp, hj⟩
      simp only [node_paths, List.mem_cons, List.mem_append] at hp
      -- the portal is gone after the front subtree, after the back subtree, or at the node
      have step3 : ∀ (hgone : (∀ n, j ∉ (FreeTreePortals_r back (1 :: path)
            (FreeTreePortals_r front (0 :: path) s)).list n)
          ∧ (FreeTreePortals_r back (1 :: path)
            (FreeTreePortals_r front (0 :: path) s)).portal j = none),
          (∀ n, j ∉ ((free_portals
            ((FreeTreePortals_r back (1 :: path)
              (FreeTreePortals_r front (0 :: path) s)).list (node_ref.in_tree path))
            (FreeTreePortals_r back (1 :: path)
              (FreeTreePortals_r front (0 :: path) s))).set_list
              (node_ref.in_tree path) []).list n)
          ∧ ((free_portals
            ((FreeTreePortals_r back (1 :: path)
              (FreeTreePortals_r front (0 :: path) s)).list (node_ref.in_tree path))
            (FreeTreePortals_r back (1 :: path)
              (FreeTreePortals_r front (0 :: path) s))).set_list
              (node_ref.in_tree path) []).portal j = none := by
        intro hgone
        refine ⟨fun n hn => hgone.1 n (hsub n j hn), ?_⟩
        rw [h3]
        split
        · rfl
        · exact hgone.2
      have step2 : ∀ (hgone : (∀ n, j ∉ (FreeTreePortals_r front (0 :: path) s).list n)
          ∧ (FreeTreePortals_r front (0 :: path) s).portal j = none),
          (∀ n, j ∉ (FreeTreePortals_r back (1 :: path)
            (FreeTreePortals_r front (0 :: path) s)).list n)
          ∧ (FreeTreePortals_r back (1 :: path)
            (FreeTreePortals_r front (0 :: path) s)).portal j = none := by
        intro hgone
        refine ⟨fun n hn => hgone.1 n (b2 n j hn), ?_⟩
        cases e : (FreeTreePortals_r back (1 :: path)
            (FreeTreePortals_r front (0 :: path) s)).portal j with
        | none => rfl
        | some q =>
          have := b3 j q e
          rw [hgone.2] at this
          exact Option.noConfusion this
      rcases hp with hp | hp | hp
      · -- the portal is in the list of the node itself
        by_cases hb : j ∈ (FreeTreePortals_r back (1 :: path)
            (FreeTreePortals_r front (0 :: path) s)).list (node_ref.in_tree path)
        · exact ⟨fun n hn => ((h2 n j).mp hn).2 hb, by rw [h3, if_pos hb]⟩
        · -- it was removed earlier: by well-linkedness it is in no list
          by_cases hf : j ∈ (FreeTreePortals_r front (0 :: path) s).list (node_ref.in_tree path)
          · -- removed by the back subtree
            obtain ⟨q, hq, hside⟩ := f1.list_side _ j hf
            have hgone : (∀ n, j ∉ (FreeTreePortals_r back (1 :: path)
                (FreeTreePortals_r front (0 :: path) s)).list n)
              ∧ (FreeTreePortals_r back (1 :: path)
                (FreeTreePortals_r front (0 :: path) s)).portal j = none := by
              cases e : (FreeTreePortals_r back (1 :: path)
                  (FreeTreePortals_r front (0 :: path) s)).portal j with
              | none =>
                refine ⟨fun n hn => ?_, rfl⟩
                obtain ⟨q2, hq2, _⟩ := b1.list_side n j hn
                rw [e] at hq2
                exact Option.noConfusion hq2
              | some q2 =>
                have e2 := b3 j q2 e
                rw [hq] at e2
                cases e2
                exact absurd (b1.side_list j q _ e hside) hb
            exact step3 hgone
          · rw [hp] at hj
            obtain ⟨q, hq, hside⟩ := hs.list_side _ j hj
            have hgone : (∀ n, j ∉ (FreeTreePortals_r front (0 :: path) s).list n)
              ∧ (FreeTreePortals_r front (0 :: path) s).portal j = none := by
              cases e : (FreeTreePortals_r front (0 :: path) s).portal j with
              | none =>
                refine ⟨fun n hn => ?_, rfl⟩
                obtain ⟨q2, hq2, _⟩ := f1.list_side n j hn
                rw [e] at hq2
                exact Option.noConfusion hq2
              | some q2 =>
                have e2 := f3 j q2 e
                rw [hq] at e2
                cases e2
                exact absurd (f1.side_list j q _ e hside) hf
            exact step3 (step2 hgone)
      · exact step3 (step2 (f5 j ⟨p, hp, hj⟩))
      · -- in the list of a node of the back subtree before the call
        by_cases hf : j ∈ (FreeTreePortals_r front (0 :: path) s).list (node_ref.in_tree p)
        · exact step3 (b5 j ⟨p, hp, hf⟩)
        · obtain ⟨q, hq, hside⟩ := hs.list_side _ j hj
          have hgone : (∀ n, j ∉ (FreeTreePortals_r front (0 :: path) s).list n)
            ∧ (FreeTreePortals_r front (0 :: path) s).portal j = none := by
            cases e : (FreeTreePortals_r front (0 :: path) s).portal j with
            | none =>
              refine ⟨fun n hn => ?_, rfl⟩
              obtain ⟨q2, hq2, _⟩ := f1.list_side n j hn
              rw [e] at hq2
              exact Option.noConfusion hq2
            | some q2 =>
              have e2 := f3 j q2 e
              rw [hq] at e2
              cases e2
              exact absurd (f1.side_list j q _ e hside) hf
          exact step3 (step2 hgone)

/-- C3: for every tree with a well-linked portal graph, after `FreeTreePortals_r`
is applied to the headnode, every node reachable from the headnode has an
empty portal list, so that `AssertNoPortals` holds on each of them, and no
portal that was reachable before the call (in the portal list of a node of
the tree) is still linked to any node, the outside region included; its
record is deleted. -/
theorem FreeTreePortals_r_frees_all (tree : tree_t) (s : portal_graph) (hs : well_linked s) :
    (∀ p ∈ node_paths tree.headnode [],
        (FreeTreePortals_r tree.headnode [] s).list (node_ref.in_tree p) = []
          ∧ AssertNoPortals (FreeTreePortals_r tree.headnode [] s) (node_ref.in_tree p) = true)
      ∧ (∀ id, (∃ p ∈ node_paths tree.headnode [], id ∈ s.list (node_ref.in_tree p)) →
          (∀ n, id ∉ (FreeTreePortals_r tree.headnode [] s).list n)
            ∧ (FreeTreePortals_r tree.headnode [] s).portal id = none) := by
  obtain ⟨_, _, _, h4, h5⟩ := FreeTreePortals_r_inv tree.headnode [] s hs
  refine ⟨fun p hp => ⟨h4 p hp, ?_⟩, h5⟩
  unfold AssertNoPortals
  rw [h4 p hp]
  rfl

/-- Witness of C3: the teardown of the portal graph of the unit cube split once. -/
theorem FreeTreePortals_r_frees_all_witness :
    well_linked example_graph
      ∧ (∀ p ∈ node_paths example_tree.headnode [],
          (FreeTreePortals_r example_tree.headnode [] example_graph).list (node_ref.in_tree p)
              = []
            ∧ AssertNoPortals (FreeTreePortals_r example_tree.headnode [] example_graph)
                (node_ref.in_tree p) = true)
      ∧ (∀ id, (∃ p ∈ node_paths example_tree.headnode [],
            id ∈ example_graph.list (node_ref.in_tree p)) →
          (∀ n, id ∉ (FreeTreePortals_r example_tree.headnode [] example_graph).list n)
            ∧ (FreeTreePortals_r example_tree.headnode [] example_graph).portal id = none) :=
  ⟨MakeTreePortals_well_linked example_geometry example_tree example_graph example_graph_built,
    FreeTreePortals_r_frees_all example_tree example_graph
      (MakeTreePortals_well_linked example_geometry example_tree example_graph
        example_graph_built)⟩

/-- The example, evaluated: the front leaf has seven portals before the teardown
and the outside region twelve; afterwards both lists are empty and the
thirteen records are deleted. -/
theorem example_graph_teardown :
    (example_graph.list (node_ref.in_tree [0])).length = 7
      ∧ (example_graph.list node_ref.outside_node).length = 12
      ∧ example_graph.portals.length = 13
      ∧ (FreeTreePortals_r example_tree.headnode [] example_graph).list (node_ref.in_tree [0])
          = []
      ∧ (FreeTreePortals_r example_tree.headnode [] example_graph).list node_ref.outside_node
          = []
      ∧ (FreeTreePortals_r example_tree.headnode [] example_graph).portals
          = List.replicate 13 none := by
  decide
